import Mathlib

/-!
TriangleRaster: the pixel loop, the mesh renderers and the terminal surface

A shallow embedding of `src/triangleraster.h` (with the frame loop of
`src/main.c` as the caller of two consecutive draw calls).

* C `float` values are modelled by `F32`: a rational, an infinity or NaN, with
  the comparisons of IEEE 754 (every ordered comparison involving NaN is
  false, `!=` involving NaN is true).
* The header `trianglemath.h` is not part of the sources.  Its types are
  modelled from the specification and its functions are taken as a parameter
  record `TriangleMath`.
* A C array with its element count is a `List`.
* `set_pixel` is a parameter of `render_triangles` (the backend is selected
  by a preprocessor switch); the terminal backend is modelled in full.
-/

namespace TriangleRaster

/-! ## Values of the C type `float` -/

/-- A value of the C type `float`: NaN, an infinity, or a finite number. -/
inductive F32 where
  | nan : F32
  | ninf : F32
  | fin (q : ℚ) : F32
  | pinf : F32
  deriving DecidableEq

namespace F32

/-- The C comparison `a < b` on floats. -/
def lt : F32 → F32 → Bool
  | fin a, fin b => decide (a < b)
  | ninf, fin _ => true
  | ninf, pinf => true
  | fin _, pinf => true
  | _, _ => false

/-- The C comparison `a > b` on floats. -/
def gt (a b : F32) : Bool := lt b a

/-- The C comparison `a != b` on floats (true as soon as one side is NaN). -/
def ne : F32 → F32 → Bool
  | nan, _ => true
  | _, nan => true
  | a, b => decide (a ≠ b)

/-- The C comparison `a <= b` on floats. -/
def le : F32 → F32 → Bool
  | fin a, fin b => decide (a ≤ b)
  | ninf, nan => false
  | ninf, _ => true
  | fin _, pinf => true
  | pinf, pinf => true
  | _, _ => false

end F32

/-! ## Data model -/

/-- The struct `Color`: three `uint8_t` channels. -/
structure Color where
  r : Nat
  g : Nat
  b : Nat
  deriving DecidableEq

/-- Modelled from the spec: the type `Vec3` of `trianglemath.h`, three
floating-point components. -/
structure Vec3 where
  x : F32
  y : F32
  z : F32
  deriving DecidableEq

/-- Modelled from the spec: the type `Triangle` of `trianglemath.h`, three
vertex positions `v[0..2]` and three parallel colors `c[0..2]`. -/
structure Triangle where
  v0 : Vec3
  v1 : Vec3
  v2 : Vec3
  c0 : Color
  c1 : Color
  c2 : Color
  deriving DecidableEq

/-- Modelled from the spec: the type `struct TriangleBounds` of
`trianglemath.h`, an integer screen-space bounding box. -/
structure TriangleBounds where
  xmin : Int
  xmax : Int
  ymin : Int
  ymax : Int
  deriving DecidableEq

/-- Modelled from the spec: the type `Mesh` of `trianglemath.h`.  The pair
(`triangles`, `triangle_count`) of the C struct is the list `triangles`. -/
structure Mesh where
  triangles : List Triangle
  pos : Vec3
  rot : Vec3

/-- The field `triangle_count` of a mesh. -/
def Mesh.triangle_count (m : Mesh) : Nat := m.triangles.length

/-- The functions of `trianglemath.h` that `triangleraster.h` calls.  The
header is not among the sources, so they are a parameter; `P` is the return
type of `px_to_screen_space`.  `shade_triangle` updates a triangle through a
pointer and is modelled as returning the updated triangle. -/
structure TriangleMath (P : Type) where
  project_triangle : Triangle → Triangle
  get_triangle_bounds : Triangle → TriangleBounds
  px_to_screen_space : Int → Int → P
  barycentric : Vec3 → Vec3 → Vec3 → P → Vec3
  interpolate_depth : Vec3 → Vec3 → Vec3 → Vec3 → F32
  interpolate_colors : Color → Color → Color → Vec3 → Color
  transform_triangle : Triangle → Vec3 → Vec3 → Triangle
  shade_triangle : Triangle → Vec3 → Triangle

/-! ## `render_triangles` -/

/-- Modelled from the spec: the four `min`/`max` updates of the union
bounding box, with `min` and `max` of `trianglemath.h` on `int`. -/
def union_bounds (g b : TriangleBounds) : TriangleBounds :=
  { xmin := min g.xmin b.xmin
    xmax := max g.xmax b.xmax
    ymin := min g.ymin b.ymin
    ymax := max g.ymax b.ymax }

/-- The variable `global_bounds` after the first loop of `render_triangles`:
the bounds of triangle 0, widened by every later triangle.  For an empty
batch the variable is never assigned; `uninit` is its indeterminate value. -/
def global_bounds (uninit : TriangleBounds) : List TriangleBounds → TriangleBounds
  | [] => uninit
  | b :: rest => rest.foldl union_bounds b

/-- The near-plane threshold `0.1f` (the binary32 value nearest to 0.1). -/
def near_threshold : F32 := F32.fin (13421773 / 134217728)

/-- The initial value `100.f` of `closest_depth`. -/
def far_sentinel : F32 := F32.fin 100

/-- The outside sentinel `-1.f` tested on the first barycentric component. -/
def outside_sentinel : F32 := F32.fin (-1)

/-- The two locals of the pixel loop that the triangle loop updates. -/
structure Fragment where
  fragment_color : Color
  closest_depth : F32
  deriving DecidableEq

/-- The locals at the start of the triangle loop. -/
def Fragment.init : Fragment :=
  { fragment_color := ⟨0, 0, 0⟩, closest_depth := far_sentinel }

/-- One iteration of the triangle loop for pixel `(x, y)`, on a projected
triangle and its bounds. -/
def fragment_step {P : Type} (tm : TriangleMath P) (x y : Int) (st : Fragment)
    (tb : Triangle × TriangleBounds) : Fragment :=
  let tri := tb.1
  let b := tb.2
  if x < b.xmin ∨ x > b.xmax ∨ y < b.ymin ∨ y > b.ymax then st
  else
    let p := tm.barycentric tri.v0 tri.v1 tri.v2 (tm.px_to_screen_space x y)
    if F32.ne p.x outside_sentinel then
      let depth := tm.interpolate_depth tri.v0 tri.v1 tri.v2 p
      if F32.lt depth st.closest_depth && F32.gt depth near_threshold then
        { fragment_color := tm.interpolate_colors tri.c0 tri.c1 tri.c2 p
          closest_depth := depth }
      else st
    else st

/-- The value of `fragment_color` after the triangle loop for pixel `(x, y)`. -/
def resolve_fragment {P : Type} (tm : TriangleMath P)
    (tris : List (Triangle × TriangleBounds)) (x y : Int) : Color :=
  (tris.foldl (fragment_step tm x y) Fragment.init).fragment_color

/-- The values taken by `for(int i = lo; i < hi; i++)`, in order. -/
def loop_range (lo hi : Int) : List Int :=
  (List.range (hi - lo).toNat).map (fun (k : Nat) => lo + (k : Int))

/-- The projected triangles paired with their bounds (`triangles[i]`,
`bounds[i]`). -/
def projected {P : Type} (tm : TriangleMath P) (triangle_array : List Triangle) :
    List (Triangle × TriangleBounds) :=
  (triangle_array.map tm.project_triangle).map (fun t => (t, tm.get_triangle_bounds t))

/-- The union bounds of a batch, as the pixel loop reads them. -/
def scan_bounds {P : Type} (tm : TriangleMath P) (uninit : TriangleBounds)
    (triangle_array : List Triangle) : TriangleBounds :=
  global_bounds uninit ((projected tm triangle_array).map Prod.snd)

/-- The body of the pixel loop at `(x, y)`: resolve the fragment color and
call `set_pixel` when it is not black. -/
def pixel_body {P σ : Type} (tm : TriangleMath P) (set_pixel : Color → Int → Int → σ → σ)
    (tris : List (Triangle × TriangleBounds)) (y x : Int) (s : σ) : σ :=
  let fragment_color := resolve_fragment tm tris x y
  if fragment_color.r ≠ 0 ∨ fragment_color.g ≠ 0 ∨ fragment_color.b ≠ 0 then
    set_pixel fragment_color x y s
  else s

/-- The function `render_triangles`, as a transformer of the output surface
`σ` behind `set_pixel`. -/
def render_triangles {P σ : Type} (tm : TriangleMath P)
    (set_pixel : Color → Int → Int → σ → σ) (uninit : TriangleBounds)
    (triangle_array : List Triangle) (s : σ) : σ :=
  let tris := projected tm triangle_array
  let gb := global_bounds uninit (tris.map Prod.snd)
  (loop_range gb.ymin gb.ymax).foldl
    (fun s y => (loop_range gb.xmin gb.xmax).foldl
      (fun s x => pixel_body tm set_pixel tris y x s) s) s

/-- One recorded call `set_pixel(color, x, y)`. -/
structure PixelCall where
  color : Color
  x : Int
  y : Int
  deriving DecidableEq

/-- The surface that records every `set_pixel` call, in call order. -/
def record_pixel (color : Color) (x y : Int) (log : List PixelCall) : List PixelCall :=
  log ++ [⟨color, x, y⟩]

/-- The sequence of `set_pixel` calls made by one `render_triangles` call. -/
def render_calls {P : Type} (tm : TriangleMath P) (uninit : TriangleBounds)
    (triangle_array : List Triangle) : List PixelCall :=
  render_triangles tm record_pixel uninit triangle_array []

/-! ## `render_mesh` and `render_mesh_shaded` -/

/-- The loop of `render_mesh` that fills the working copy: `out` holds
`triangles[0..i)` and the list argument the stored triangles from index `i`
on. -/
def transform_loop {P : Type} (tm : TriangleMath P) (pos rot : Vec3) :
    List Triangle → List Triangle → List Triangle
  | [], out => out
  | t :: rest, out =>
      transform_loop tm pos rot rest (out ++ [tm.transform_triangle t pos rot])

/-- The loop of `render_mesh_shaded`: transform, then shade in place. -/
def transform_shade_loop {P : Type} (tm : TriangleMath P) (pos rot light : Vec3) :
    List Triangle → List Triangle → List Triangle
  | [], out => out
  | t :: rest, out =>
      transform_shade_loop tm pos rot light rest
        (out ++ [tm.shade_triangle (tm.transform_triangle t pos rot) light])

/-- The batch that `render_mesh` passes to `render_triangles`; `none` when
the function returns at its first statement, before any triangle is
transformed. -/
def render_mesh_batch {P : Type} (tm : TriangleMath P) (m : Mesh) : Option (List Triangle) :=
  if m.triangle_count = 0 then none
  else some (transform_loop tm m.pos m.rot m.triangles [])

/-- The batch that `render_mesh_shaded` passes to `render_triangles`; `none`
when the function returns at its first statement. -/
def render_mesh_shaded_batch {P : Type} (tm : TriangleMath P) (m : Mesh) (light : Vec3) :
    Option (List Triangle) :=
  if m.triangle_count = 0 then none
  else some (transform_shade_loop tm m.pos m.rot light m.triangles [])

/-- The function `render_mesh`. -/
def render_mesh {P σ : Type} (tm : TriangleMath P) (set_pixel : Color → Int → Int → σ → σ)
    (uninit : TriangleBounds) (m : Mesh) (s : σ) : σ :=
  match render_mesh_batch tm m with
  | none => s
  | some triangles => render_triangles tm set_pixel uninit triangles s

/-- The function `render_mesh_shaded`. -/
def render_mesh_shaded {P σ : Type} (tm : TriangleMath P)
    (set_pixel : Color → Int → Int → σ → σ) (uninit : TriangleBounds) (m : Mesh)
    (light : Vec3) (s : σ) : σ :=
  match render_mesh_shaded_batch tm m light with
  | none => s
  | some triangles => render_triangles tm set_pixel uninit triangles s

/-! ## Binary32 arithmetic of the terminal `set_pixel` -/

/-- Rounding of a rational to the nearest integer, ties to even. -/
def round_nearest_even (q : ℚ) : ℤ :=
  if q - ⌊q⌋ < 1 / 2 then ⌊q⌋
  else if 1 / 2 < q - ⌊q⌋ then ⌊q⌋ + 1
  else if ⌊q⌋ % 2 = 0 then ⌊q⌋ else ⌊q⌋ + 1

/-- The exponent of the unit in the last place of binary32 at `q`: 24
significant bits, gradual underflow below `2 ^ (-126)`. -/
def ulp_exponent (q : ℚ) : ℤ := max (Int.log 2 |q|) (-126) - 23

/-- Rounding of an exact result to binary32, round-to-nearest-even (each
`float` operation is rounded once: `FLT_EVAL_METHOD` 0, no contraction).
Overflow to infinity is not modelled: every value of `set_pixel` is below
`2 ^ 17`. -/
def f32 (q : ℚ) : ℚ :=
  round_nearest_even (q / 2 ^ ulp_exponent q) * 2 ^ ulp_exponent q

/-- The C library function `round` (halfway cases away from zero), followed
by the cast to `int`. -/
def c_round (q : ℚ) : ℤ := if 0 ≤ q then ⌊q + 1 / 2⌋ else ⌈q - 1 / 2⌉

/-- The constant `0.299f`. -/
def coef_r : ℚ := 10032775 / 33554432

/-- The constant `0.587f`. -/
def coef_g : ℚ := 4924113 / 8388608

/-- The constant `0.114f`. -/
def coef_b : ℚ := 15300821 / 134217728

/-! ## The terminal output surface -/

/-- The array `grayscale` without its terminating NUL. -/
def grayscale : List Char :=
  "`.-':_,^=;><+!rc*/z?sLTv)J7(|Fi\x7bC\x7dfI31tlu[neoZ5Yxjya]2ESwqkP6h9d4VpOGbUAKXHm8RD#$Bg0MNWQ%&@".toList

/-- The value that `init` stores in `grayscale_len`: `strlen(grayscale)`. -/
def init_grayscale_len : ℚ := (grayscale.length : ℚ)

/-- The local `brightness` of `set_pixel`. -/
def brightness (color : Color) : ℚ :=
  f32 (f32 (f32 ((color.r : ℚ) * coef_r) + f32 ((color.g : ℚ) * coef_g))
    + f32 ((color.b : ℚ) * coef_b))

/-- The local `grayscale_index` of `set_pixel`. -/
def grayscale_index (grayscale_len : ℚ) (color : Color) : ℤ :=
  c_round (f32 (f32 (brightness color / 600) * grayscale_len))

/-- The read `grayscale[grayscale_index]`.  The array ends with a NUL; a
read outside the array has no defined value in C and is given NUL here. -/
def glyph (grayscale_len : ℚ) (color : Color) : Char :=
  if 0 ≤ grayscale_index grayscale_len color then
    grayscale.getD (grayscale_index grayscale_len color).toNat (Char.ofNat 0)
  else Char.ofNat 0

/-- The array `char screen_buffer[SH][SW+1]`. -/
abbrev ScreenBuffer (SW SH : Nat) : Type := Fin SH → Fin (SW + 1) → Char

/-- The function `clear_screen_buffer`: blanks, and a NUL at column `SW`. -/
def clear_screen_buffer (SW SH : Nat) : ScreenBuffer SW SH :=
  fun _ j => if j.val = SW then Char.ofNat 0 else Char.ofNat 32

/-- The terminal `set_pixel`, on the screen buffer; `grayscale_len` is the
global of that name. -/
def set_pixel (SW SH : Nat) (grayscale_len : ℚ) (color : Color) (x y : Int)
    (screen_buffer : ScreenBuffer SW SH) : ScreenBuffer SW SH :=
  if x < 0 ∨ x ≥ (SW : Int) ∨ y < 0 ∨ y ≥ (SH : Int) then screen_buffer
  else fun i j =>
    if (i.val : Int) = y ∧ (j.val : Int) = x then glyph grayscale_len color
    else screen_buffer i j

/-! ## The pixel loop as a list of calls -/

/-- A fragment color is drawn when one of its channels is not zero. -/
def drawn (c : Color) : Bool := decide (c.r ≠ 0 ∨ c.g ≠ 0 ∨ c.b ≠ 0)

/-- The calls made by the pixel loop on row `y` over the columns `xs`. -/
def row_calls {P : Type} (tm : TriangleMath P) (tris : List (Triangle × TriangleBounds))
    (xs : List Int) (y : Int) : List PixelCall :=
  xs.filterMap (fun x =>
    if drawn (resolve_fragment tm tris x y) then
      some ⟨resolve_fragment tm tris x y, x, y⟩
    else none)

/-- The calls made by the pixel loop over the rows `ys` and columns `xs`. -/
def grid_calls {P : Type} (tm : TriangleMath P) (tris : List (Triangle × TriangleBounds))
    (ys xs : List Int) : List PixelCall :=
  ys.flatMap (row_calls tm tris xs)

/-- Replaying a list of calls on a surface. -/
def apply_calls {σ : Type} (set_pixel : Color → Int → Int → σ → σ)
    (calls : List PixelCall) (s : σ) : σ :=
  calls.foldl (fun s c => set_pixel c.color c.x c.y s) s

/-- The calls of the scan of a batch, row by row. -/
def scan_calls {P : Type} (tm : TriangleMath P) (uninit : TriangleBounds)
    (batch : List Triangle) : List PixelCall :=
  grid_calls tm (projected tm batch)
    (loop_range (scan_bounds tm uninit batch).ymin (scan_bounds tm uninit batch).ymax)
    (loop_range (scan_bounds tm uninit batch).xmin (scan_bounds tm uninit batch).xmax)

/-! ## Names for the quantities of one triangle at one pixel -/

/-- A projected triangle with its bounds: the pair (`triangles[i]`, `bounds[i]`). -/
def project_with_bounds {P : Type} (tm : TriangleMath P) (t : Triangle) :
    Triangle × TriangleBounds :=
  (tm.project_triangle t, tm.get_triangle_bounds (tm.project_triangle t))

/-- The per-triangle containment test: the negation of the `continue`
condition of the triangle loop. -/
def in_box (b : TriangleBounds) (x y : Int) : Prop :=
  b.xmin ≤ x ∧ x ≤ b.xmax ∧ b.ymin ≤ y ∧ y ≤ b.ymax

instance (b : TriangleBounds) (x y : Int) : Decidable (in_box b x y) := by
  unfold in_box
  infer_instance

/-- The local `p` of the triangle loop: the barycentric result at `(x, y)`. -/
def tri_weights {P : Type} (tm : TriangleMath P) (x y : Int)
    (tb : Triangle × TriangleBounds) : Vec3 :=
  tm.barycentric tb.1.v0 tb.1.v1 tb.1.v2 (tm.px_to_screen_space x y)

/-- The local `depth` of the triangle loop: the interpolated depth at `(x, y)`. -/
def tri_depth {P : Type} (tm : TriangleMath P) (x y : Int)
    (tb : Triangle × TriangleBounds) : F32 :=
  tm.interpolate_depth tb.1.v0 tb.1.v1 tb.1.v2 (tri_weights tm x y tb)

/-- The interpolated color of a triangle at `(x, y)`. -/
def tri_color {P : Type} (tm : TriangleMath P) (x y : Int)
    (tb : Triangle × TriangleBounds) : Color :=
  tm.interpolate_colors tb.1.c0 tb.1.c1 tb.1.c2 (tri_weights tm x y tb)

/-- A triangle covers `(x, y)`: the pixel is within its bounds and the
barycentric result is not the outside sentinel. -/
def covers {P : Type} (tm : TriangleMath P) (x y : Int)
    (tb : Triangle × TriangleBounds) : Prop :=
  in_box tb.2 x y ∧ F32.ne (tri_weights tm x y tb).x outside_sentinel = true

instance {P : Type} (tm : TriangleMath P) (x y : Int) (tb : Triangle × TriangleBounds) :
    Decidable (covers tm x y tb) := by
  unfold covers
  infer_instance

/-- A pixel is scanned by the pixel loop over the bounds `gb`. -/
def scanned (gb : TriangleBounds) (x y : Int) : Prop :=
  (gb.ymin ≤ y ∧ y < gb.ymax) ∧ (gb.xmin ≤ x ∧ x < gb.xmax)

/-- In the words of the claim on the per-pixel winner: a triangle is a
candidate at `(x, y)` when it covers the pixel and its interpolated depth `d`
satisfies `0.1 < d < 100`. -/
def is_candidate {P : Type} (tm : TriangleMath P) (x y : Int)
    (tb : Triangle × TriangleBounds) : Prop :=
  covers tm x y tb ∧ F32.lt near_threshold (tri_depth tm x y tb) = true
    ∧ F32.lt (tri_depth tm x y tb) far_sentinel = true

instance {P : Type} (tm : TriangleMath P) (x y : Int) (tb : Triangle × TriangleBounds) :
    Decidable (is_candidate tm x y tb) := by
  unfold is_candidate
  infer_instance

instance (gb : TriangleBounds) (x y : Int) : Decidable (scanned gb x y) := by
  unfold scanned
  infer_instance

/-! ## A worked instance of the math layer

`sample_math` fills the parameter record with exact rational arithmetic, for
triangles given directly in screen space.  It is used for the concrete inputs
of the examples only; every general statement below holds for all records. -/

/-- The rational value of a finite float, and 0 for the other values. -/
def F32.toRat : F32 → ℚ
  | F32.fin q => q
  | _ => 0

/-- Modelled from the spec: `barycentric`, by signed-area ratios in the
plane, boundary included, first component `-1` outside the triangle. -/
def sample_barycentric (a b c : Vec3) (p : ℚ × ℚ) : Vec3 :=
  let den := (b.y.toRat - c.y.toRat) * (a.x.toRat - c.x.toRat)
    + (c.x.toRat - b.x.toRat) * (a.y.toRat - c.y.toRat)
  let w0 := ((b.y.toRat - c.y.toRat) * (p.1 - c.x.toRat)
    + (c.x.toRat - b.x.toRat) * (p.2 - c.y.toRat)) / den
  let w1 := ((c.y.toRat - a.y.toRat) * (p.1 - c.x.toRat)
    + (a.x.toRat - c.x.toRat) * (p.2 - c.y.toRat)) / den
  if den = 0 ∨ w0 < 0 ∨ w1 < 0 ∨ 1 - w0 - w1 < 0 then
    ⟨F32.fin (-1), F32.fin (-1), F32.fin (-1)⟩
  else ⟨F32.fin w0, F32.fin w1, F32.fin (1 - w0 - w1)⟩

/-- Modelled from the spec: `interpolate_depth`, the weighted sum of the
vertex depths. -/
def sample_interpolate_depth (a b c w : Vec3) : F32 :=
  F32.fin (a.z.toRat * w.x.toRat + b.z.toRat * w.y.toRat + c.z.toRat * w.z.toRat)

/-- Modelled from the spec: `interpolate_colors`, the weighted sum per
channel. -/
def sample_interpolate_colors (c0 c1 c2 : Color) (w : Vec3) : Color :=
  { r := ⌊(c0.r : ℚ) * w.x.toRat + (c1.r : ℚ) * w.y.toRat + (c2.r : ℚ) * w.z.toRat⌋.toNat
    g := ⌊(c0.g : ℚ) * w.x.toRat + (c1.g : ℚ) * w.y.toRat + (c2.g : ℚ) * w.z.toRat⌋.toNat
    b := ⌊(c0.b : ℚ) * w.x.toRat + (c1.b : ℚ) * w.y.toRat + (c2.b : ℚ) * w.z.toRat⌋.toNat }

/-- Modelled from the spec: `get_triangle_bounds`, the integer box around the
three vertices. -/
def sample_bounds (t : Triangle) : TriangleBounds :=
  { xmin := ⌊min (min t.v0.x.toRat t.v1.x.toRat) t.v2.x.toRat⌋
    xmax := ⌈max (max t.v0.x.toRat t.v1.x.toRat) t.v2.x.toRat⌉
    ymin := ⌊min (min t.v0.y.toRat t.v1.y.toRat) t.v2.y.toRat⌋
    ymax := ⌈max (max t.v0.y.toRat t.v1.y.toRat) t.v2.y.toRat⌉ }

/-- A translation of a position. -/
def sample_translate (v pos : Vec3) : Vec3 :=
  ⟨F32.fin (v.x.toRat + pos.x.toRat), F32.fin (v.y.toRat + pos.y.toRat),
    F32.fin (v.z.toRat + pos.z.toRat)⟩

/-- The worked instance: screen-space triangles (projection is the identity),
translation only, and a shader of ambient weight 1 and diffuse weight 0. -/
def sample_math : TriangleMath (ℚ × ℚ) :=
  { project_triangle := fun t => t
    get_triangle_bounds := sample_bounds
    px_to_screen_space := fun x y => ((x : ℚ), (y : ℚ))
    barycentric := sample_barycentric
    interpolate_depth := sample_interpolate_depth
    interpolate_colors := sample_interpolate_colors
    transform_triangle := fun t pos _ =>
      { t with v0 := sample_translate t.v0 pos, v1 := sample_translate t.v1 pos,
               v2 := sample_translate t.v2 pos }
    shade_triangle := fun t _ => t }

/-- The triangle with corners (0,0), (2,0), (0,2) at constant depth `z` and of
uniform color `c`. -/
def sample_triangle (z : ℚ) (c : Color) : Triangle :=
  { v0 := ⟨F32.fin 0, F32.fin 0, F32.fin z⟩
    v1 := ⟨F32.fin 2, F32.fin 0, F32.fin z⟩
    v2 := ⟨F32.fin 0, F32.fin 2, F32.fin z⟩
    c0 := c, c1 := c, c2 := c }

/-- Some value for the unassigned `global_bounds` of an empty batch. -/
def sample_uninit : TriangleBounds := ⟨0, 0, 0, 0⟩

/-! ## The mesh renderers in the words of the specification -/

/-- In the words of the spec: the batch of `render_mesh`, every stored
triangle transformed by the position and rotation of the mesh, in order. -/
def spec_mesh_batch {P : Type} (tm : TriangleMath P) (m : Mesh) : List Triangle :=
  m.triangles.map (fun t => tm.transform_triangle t m.pos m.rot)

/-- In the words of the spec: the batch of `render_mesh_shaded`, the shader
applied to each transformed triangle. -/
def spec_shaded_batch {P : Type} (tm : TriangleMath P) (m : Mesh) (light : Vec3) :
    List Triangle :=
  (spec_mesh_batch tm m).map (fun t => tm.shade_triangle t light)

/-- A mesh of one sample triangle, at the origin. -/
def sample_mesh : Mesh :=
  { triangles := [sample_triangle 1 ⟨255, 0, 0⟩]
    pos := ⟨F32.fin 0, F32.fin 0, F32.fin 0⟩
    rot := ⟨F32.fin 0, F32.fin 0, F32.fin 0⟩ }

/-- A mesh without triangles. -/
def sample_empty_mesh : Mesh :=
  { triangles := []
    pos := ⟨F32.fin 0, F32.fin 0, F32.fin 0⟩
    rot := ⟨F32.fin 0, F32.fin 0, F32.fin 0⟩ }

/-! # Properties -/

/-! ## The pixel loop makes exactly the calls of `scan_calls` -/

theorem drawn_iff_ne_black (c : Color) : drawn c = true ↔ c ≠ ⟨0, 0, 0⟩ := by
  cases c with
  | mk r g b =>
    simp only [drawn, decide_eq_true_eq, ne_eq, Color.mk.injEq]
    tauto

theorem apply_calls_append {σ : Type} (sp : Color → Int → Int → σ → σ)
    (a b : List PixelCall) (s : σ) :
    apply_calls sp (a ++ b) s = apply_calls sp b (apply_calls sp a s) := by
  simp [apply_calls, List.foldl_append]

theorem row_fold {P σ : Type} (tm : TriangleMath P) (sp : Color → Int → Int → σ → σ)
    (tris : List (Triangle × TriangleBounds)) (y : Int) (xs : List Int) (s : σ) :
    xs.foldl (fun s x => pixel_body tm sp tris y x s) s
      = apply_calls sp (row_calls tm tris xs y) s := by
  induction xs generalizing s with
  | nil => rfl
  | cons x rest ih =>
    rw [List.foldl_cons, ih]
    by_cases h : drawn (resolve_fragment tm tris x y) = true
    · have h2 := h
      simp only [drawn, decide_eq_true_eq] at h2
      simp [row_calls, List.filterMap_cons, h, pixel_body, h2, apply_calls]
    · have h2 := h
      simp only [drawn, decide_eq_true_eq] at h2
      simp [row_calls, List.filterMap_cons, h, pixel_body, h2, apply_calls]

theorem grid_fold {P σ : Type} (tm : TriangleMath P) (sp : Color → Int → Int → σ → σ)
    (tris : List (Triangle × TriangleBounds)) (xs ys : List Int) (s : σ) :
    ys.foldl (fun s y => xs.foldl (fun s x => pixel_body tm sp tris y x s) s) s
      = apply_calls sp (grid_calls tm tris ys xs) s := by
  induction ys generalizing s with
  | nil => rfl
  | cons y rest ih =>
    rw [List.foldl_cons, ih, row_fold]
    simp [grid_calls, List.flatMap_cons, apply_calls_append]

theorem render_triangles_eq_apply {P σ : Type} (tm : TriangleMath P)
    (sp : Color → Int → Int → σ → σ) (uninit : TriangleBounds) (batch : List Triangle)
    (s : σ) :
    render_triangles tm sp uninit batch s = apply_calls sp (scan_calls tm uninit batch) s := by
  simp only [render_triangles, scan_calls, scan_bounds]
  exact grid_fold tm sp _ _ _ s

theorem apply_calls_record (calls log : List PixelCall) :
    apply_calls record_pixel calls log = log ++ calls := by
  induction calls generalizing log with
  | nil => simp [apply_calls]
  | cons c rest ih =>
    have : apply_calls record_pixel (c :: rest) log
        = apply_calls record_pixel rest (record_pixel c.color c.x c.y log) := rfl
    rw [this, ih]
    simp [record_pixel]

theorem render_calls_eq_scan {P : Type} (tm : TriangleMath P) (uninit : TriangleBounds)
    (batch : List Triangle) : render_calls tm uninit batch = scan_calls tm uninit batch := by
  simp [render_calls, render_triangles_eq_apply, apply_calls_record]

theorem mem_loop_range (lo hi x : Int) : x ∈ loop_range lo hi ↔ lo ≤ x ∧ x < hi := by
  simp only [loop_range, List.mem_map, List.mem_range]
  constructor
  · rintro ⟨k, hk, rfl⟩
    omega
  · rintro ⟨h1, h2⟩
    exact ⟨(x - lo).toNat, by omega, by omega⟩

theorem nodup_loop_range (lo hi : Int) : (loop_range lo hi).Nodup := by
  unfold loop_range
  apply List.Nodup.map _ (List.nodup_range _)
  intro a b h
  simpa using h

theorem mem_row_calls {P : Type} (tm : TriangleMath P) (tris : List (Triangle × TriangleBounds))
    (xs : List Int) (y : Int) (c : PixelCall) :
    c ∈ row_calls tm tris xs y ↔
      c.x ∈ xs ∧ c.y = y ∧ c.color = resolve_fragment tm tris c.x c.y
        ∧ drawn (resolve_fragment tm tris c.x c.y) = true := by
  simp only [row_calls, List.mem_filterMap]
  constructor
  · rintro ⟨x, hx, h⟩
    by_cases hd : drawn (resolve_fragment tm tris x y) = true
    · simp only [hd, if_true, Option.some.injEq] at h
      subst h
      exact ⟨hx, rfl, rfl, hd⟩
    · simp [hd] at h
  · rintro ⟨hx, hy, hc, hd⟩
    refine ⟨c.x, hx, ?_⟩
    subst hy
    rw [if_pos hd, ← hc]

theorem mem_grid_calls {P : Type} (tm : TriangleMath P) (tris : List (Triangle × TriangleBounds))
    (ys xs : List Int) (c : PixelCall) :
    c ∈ grid_calls tm tris ys xs ↔
      c.y ∈ ys ∧ c.x ∈ xs ∧ c.color = resolve_fragment tm tris c.x c.y
        ∧ drawn (resolve_fragment tm tris c.x c.y) = true := by
  simp only [grid_calls, List.mem_flatMap, mem_row_calls]
  constructor
  · rintro ⟨y, hy, hx, rfl, h⟩
    exact ⟨hy, hx, h⟩
  · rintro ⟨hy, hx, h⟩
    exact ⟨c.y, hy, hx, rfl, h⟩

theorem mem_scan_calls {P : Type} (tm : TriangleMath P) (uninit : TriangleBounds)
    (batch : List Triangle) (c : PixelCall) :
    c ∈ scan_calls tm uninit batch ↔
      ((scan_bounds tm uninit batch).ymin ≤ c.y ∧ c.y < (scan_bounds tm uninit batch).ymax)
      ∧ ((scan_bounds tm uninit batch).xmin ≤ c.x ∧ c.x < (scan_bounds tm uninit batch).xmax)
      ∧ c.color = resolve_fragment tm (projected tm batch) c.x c.y
      ∧ drawn (resolve_fragment tm (projected tm batch) c.x c.y) = true := by
  simp only [scan_calls, mem_grid_calls, mem_loop_range]

/-! ## Order facts on `F32` -/

theorem f32_lt_asymm {a b : F32} (h : F32.lt a b = true) : F32.lt b a = false := by
  cases a <;> cases b <;> simp_all [F32.lt]
  exact le_of_lt h

theorem f32_lt_trans {a b c : F32} (h1 : F32.lt a b = true) (h2 : F32.lt b c = true) :
    F32.lt a c = true := by
  cases a <;> cases b <;> cases c <;> simp_all [F32.lt]
  exact lt_trans h1 h2

theorem f32_not_lt_of_le {a b : F32} (h : F32.le a b = true) : F32.lt b a = false := by
  cases a <;> cases b <;> simp_all [F32.lt, F32.le]

/-! ## One iteration of the triangle loop -/

theorem fragment_step_eq {P : Type} (tm : TriangleMath P) (x y : Int) (st : Fragment)
    (tb : Triangle × TriangleBounds) :
    fragment_step tm x y st tb =
      if covers tm x y tb ∧ F32.lt (tri_depth tm x y tb) st.closest_depth = true
          ∧ F32.gt (tri_depth tm x y tb) near_threshold = true then
        { fragment_color := tri_color tm x y tb, closest_depth := tri_depth tm x y tb }
      else st := by
  unfold fragment_step covers in_box tri_depth tri_color tri_weights
  by_cases hb : x < tb.2.xmin ∨ x > tb.2.xmax ∨ y < tb.2.ymin ∨ y > tb.2.ymax
  · rw [if_pos hb, if_neg]
    intro h
    omega
  · rw [if_neg hb]
    have hb2 : tb.2.xmin ≤ x ∧ x ≤ tb.2.xmax ∧ tb.2.ymin ≤ y ∧ y ≤ tb.2.ymax := by omega
    by_cases hn : F32.ne (tm.barycentric tb.1.v0 tb.1.v1 tb.1.v2
        (tm.px_to_screen_space x y)).x outside_sentinel = true
    · simp only [hn, hb2, if_true, true_and, and_self, Bool.and_eq_true]
    · simp only [hn, hb2, if_false, and_false, false_and, Bool.false_eq_true]

theorem fragment_step_accept {P : Type} (tm : TriangleMath P) (x y : Int) (st : Fragment)
    (tb : Triangle × TriangleBounds) (hc : covers tm x y tb)
    (h1 : F32.lt (tri_depth tm x y tb) st.closest_depth = true)
    (h2 : F32.lt near_threshold (tri_depth tm x y tb) = true) :
    fragment_step tm x y st tb
      = { fragment_color := tri_color tm x y tb, closest_depth := tri_depth tm x y tb } := by
  rw [fragment_step_eq, if_pos]
  exact ⟨hc, h1, h2⟩

theorem fragment_step_reject_depth {P : Type} (tm : TriangleMath P) (x y : Int)
    (st : Fragment) (tb : Triangle × TriangleBounds)
    (h : F32.lt (tri_depth tm x y tb) st.closest_depth = false) :
    fragment_step tm x y st tb = st := by
  rw [fragment_step_eq, if_neg]
  rintro ⟨_, h1, _⟩
  rw [h] at h1
  exact Bool.false_ne_true h1

theorem fragment_step_reject_near {P : Type} (tm : TriangleMath P) (x y : Int)
    (st : Fragment) (tb : Triangle × TriangleBounds)
    (h : F32.lt near_threshold (tri_depth tm x y tb) = false) :
    fragment_step tm x y st tb = st := by
  rw [fragment_step_eq, if_neg]
  rintro ⟨_, _, h2⟩
  rw [F32.gt, h] at h2
  exact Bool.false_ne_true h2

theorem fragment_step_reject_cover {P : Type} (tm : TriangleMath P) (x y : Int)
    (st : Fragment) (tb : Triangle × TriangleBounds) (h : ¬ covers tm x y tb) :
    fragment_step tm x y st tb = st := by
  rw [fragment_step_eq, if_neg]
  rintro ⟨hc, _, _⟩
  exact h hc

theorem projected_eq_map {P : Type} (tm : TriangleMath P) (batch : List Triangle) :
    projected tm batch = batch.map (project_with_bounds tm) := by
  simp [projected, project_with_bounds, List.map_map, Function.comp_def]

theorem f32_finite_of_between {a d b : F32} (h1 : F32.lt a d = true) (h2 : F32.lt d b = true) :
    ∃ q, d = F32.fin q := by
  cases d with
  | fin q => exact ⟨q, rfl⟩
  | nan => cases a <;> simp [F32.lt] at h1
  | ninf => cases a <;> simp [F32.lt] at h1
  | pinf => cases b <;> simp [F32.lt] at h2

theorem f32_lt_of_lt_of_not_lt {a b c : F32} (h1 : F32.lt a b = true)
    (h2 : F32.lt c b = false) (hc : ∃ q, c = F32.fin q) (hb : ∃ q, b = F32.fin q) :
    F32.lt a c = true := by
  obtain ⟨qc, rfl⟩ := hc
  obtain ⟨qb, rfl⟩ := hb
  cases a <;> simp_all [F32.lt]
  exact lt_of_lt_of_le h1 h2

/-! ## The triangle loop as a whole -/

theorem candidate_finite {P : Type} (tm : TriangleMath P) (x y : Int)
    (u : Triangle × TriangleBounds) (h : is_candidate tm x y u) :
    ∃ q, tri_depth tm x y u = F32.fin q :=
  f32_finite_of_between h.2.1 h.2.2

/-- A state whose depth is the initial one, or closer than it, is left
unchanged by triangles none of which is a closer candidate. -/
theorem fold_unchanged {P : Type} (tm : TriangleMath P) (x y : Int)
    (post : List (Triangle × TriangleBounds)) (st : Fragment)
    (hst : st.closest_depth = far_sentinel ∨ F32.lt st.closest_depth far_sentinel = true)
    (h : ∀ u ∈ post, is_candidate tm x y u →
      F32.lt (tri_depth tm x y u) st.closest_depth = false) :
    post.foldl (fragment_step tm x y) st = st := by
  induction post with
  | nil => rfl
  | cons u rest ih =>
    have hu : fragment_step tm x y st u = st := by
      rw [fragment_step_eq, if_neg]
      rintro ⟨hc, hl, hg⟩
      have hfar : F32.lt (tri_depth tm x y u) far_sentinel = true := by
        rcases hst with h0 | h0
        · rw [← h0]; exact hl
        · exact f32_lt_trans hl h0
      have := h u (List.mem_cons_self u rest) ⟨hc, hg, hfar⟩
      rw [this] at hl
      exact Bool.false_ne_true hl
    rw [List.foldl_cons, hu]
    exact ih (fun v hv => h v (List.mem_cons_of_mem u hv))

/-- The depth held after a run of the triangle loop is the starting depth or
the depth of a covering triangle of the run that is closer than it. -/
theorem fold_closest {P : Type} (tm : TriangleMath P) (x y : Int)
    (pre : List (Triangle × TriangleBounds)) (st : Fragment) :
    (pre.foldl (fragment_step tm x y) st).closest_depth = st.closest_depth ∨
      ∃ u ∈ pre, covers tm x y u ∧ F32.lt near_threshold (tri_depth tm x y u) = true
        ∧ F32.lt (tri_depth tm x y u) st.closest_depth = true
        ∧ (pre.foldl (fragment_step tm x y) st).closest_depth = tri_depth tm x y u := by
  induction pre generalizing st with
  | nil => exact Or.inl rfl
  | cons a rest ih =>
    rw [List.foldl_cons]
    by_cases hacc : covers tm x y a ∧ F32.lt (tri_depth tm x y a) st.closest_depth = true
        ∧ F32.gt (tri_depth tm x y a) near_threshold = true
    · have hstep : fragment_step tm x y st a
          = { fragment_color := tri_color tm x y a, closest_depth := tri_depth tm x y a } := by
        rw [fragment_step_eq, if_pos hacc]
      rw [hstep]
      rcases ih { fragment_color := tri_color tm x y a, closest_depth := tri_depth tm x y a }
        with h | ⟨u, hu, hc, hn, hl, he⟩
      · exact Or.inr ⟨a, List.mem_cons_self a rest, hacc.1, hacc.2.2, hacc.2.1, h⟩
      · exact Or.inr ⟨u, List.mem_cons_of_mem a hu, hc, hn, f32_lt_trans hl hacc.2.1, he⟩
    · have hstep : fragment_step tm x y st a = st := by
        rw [fragment_step_eq, if_neg hacc]
      rw [hstep]
      rcases ih st with h | ⟨u, hu, h⟩
      · exact Or.inl h
      · exact Or.inr ⟨u, List.mem_cons_of_mem a hu, h⟩

/-- The triangle loop returns the color of a candidate that is strictly
closer than every candidate before it and not farther than any after it. -/
theorem resolve_of_split {P : Type} (tm : TriangleMath P) (x y : Int)
    (pre post : List (Triangle × TriangleBounds)) (t : Triangle × TriangleBounds)
    (ht : is_candidate tm x y t)
    (hpre : ∀ u ∈ pre, is_candidate tm x y u →
      F32.lt (tri_depth tm x y t) (tri_depth tm x y u) = true)
    (hpost : ∀ u ∈ post, is_candidate tm x y u →
      F32.lt (tri_depth tm x y u) (tri_depth tm x y t) = false) :
    resolve_fragment tm (pre ++ t :: post) x y = tri_color tm x y t := by
  unfold resolve_fragment
  rw [List.foldl_append, List.foldl_cons]
  have hlt : F32.lt (tri_depth tm x y t)
      (pre.foldl (fragment_step tm x y) Fragment.init).closest_depth = true := by
    rcases fold_closest tm x y pre Fragment.init with h | ⟨u, hu, hc, hn, hl, he⟩
    · rw [h]; exact ht.2.2
    · rw [he]; exact hpre u hu ⟨hc, hn, hl⟩
  rw [fragment_step_accept tm x y _ t ht.1 hlt ht.2.1]
  rw [fold_unchanged tm x y post _ (Or.inr ht.2.2) hpost]

theorem resolve_no_candidate {P : Type} (tm : TriangleMath P) (x y : Int)
    (tris : List (Triangle × TriangleBounds)) (h : ∀ u ∈ tris, ¬ is_candidate tm x y u) :
    resolve_fragment tm tris x y = ⟨0, 0, 0⟩ := by
  unfold resolve_fragment
  rw [fold_unchanged tm x y tris Fragment.init (Or.inl rfl)
    (fun u hu hc => absurd hc (h u hu))]
  rfl

/-- Among the triangles of a batch with a candidate, one candidate is
strictly closer than every candidate before it and not farther than any
after it. -/
theorem exists_earliest_closest {P : Type} (tm : TriangleMath P) (x y : Int)
    (tris : List (Triangle × TriangleBounds)) (h : ∃ u ∈ tris, is_candidate tm x y u) :
    ∃ pre t post, tris = pre ++ t :: post ∧ is_candidate tm x y t
      ∧ (∀ u ∈ pre, is_candidate tm x y u →
          F32.lt (tri_depth tm x y t) (tri_depth tm x y u) = true)
      ∧ (∀ u ∈ post, is_candidate tm x y u →
          F32.lt (tri_depth tm x y u) (tri_depth tm x y t) = false) := by
  induction tris with
  | nil =>
    obtain ⟨u, hu, _⟩ := h
    simp at hu
  | cons a rest ih =>
    by_cases hrest : ∃ u ∈ rest, is_candidate tm x y u
    · obtain ⟨pre, t, post, heq, ht, hpre, hpost⟩ := ih hrest
      by_cases ha : is_candidate tm x y a ∧
          F32.lt (tri_depth tm x y t) (tri_depth tm x y a) = false
      · refine ⟨[], a, rest, rfl, ha.1, by simp, ?_⟩
        intro u hu hcu
        have hnot : ¬ F32.lt (tri_depth tm x y u) (tri_depth tm x y a) = true := by
          intro hlt
          have hut : F32.lt (tri_depth tm x y u) (tri_depth tm x y t) = true :=
            f32_lt_of_lt_of_not_lt hlt ha.2 (candidate_finite tm x y t ht)
              (candidate_finite tm x y a ha.1)
          rw [heq] at hu
          rcases List.mem_append.1 hu with hp | hp
          · have := f32_lt_asymm (hpre u hp hcu)
            rw [this] at hut
            exact Bool.false_ne_true hut
          · rcases List.mem_cons.1 hp with hp | hp
            · subst hp
              have := f32_lt_asymm hut
              rw [this] at hut
              exact Bool.false_ne_true hut
            · have := hpost u hp hcu
              rw [this] at hut
              exact Bool.false_ne_true hut
        simpa using hnot
      · refine ⟨a :: pre, t, post, by rw [heq]; rfl, ht, ?_, hpost⟩
        intro u hu hcu
        rcases List.mem_cons.1 hu with hp | hp
        · subst hp
          by_contra hcon
          exact ha ⟨hcu, by simpa using hcon⟩
        · exact hpre u hp hcu
    · obtain ⟨u, hu, hcu⟩ := h
      rcases List.mem_cons.1 hu with hp | hp
      · subst hp
        refine ⟨[], u, rest, rfl, hcu, by simp, ?_⟩
        intro v hv hcv
        exact absurd ⟨v, hv, hcv⟩ hrest
      · exact absurd ⟨u, hp, hcu⟩ hrest

/-! ## The worked instance at the pixels used in the examples -/

theorem sample_pwb (z : ℚ) (c : Color) :
    project_with_bounds sample_math (sample_triangle z c)
      = (sample_triangle z c, ⟨0, 2, 0, 2⟩) := by
  have hb : sample_bounds (sample_triangle z c) = ⟨0, 2, 0, 2⟩ := by
    norm_num [sample_bounds, sample_triangle, F32.toRat]
  simp [project_with_bounds, sample_math, hb]

theorem sample_weights_origin (z : ℚ) (c : Color) (b : TriangleBounds) :
    tri_weights sample_math 0 0 (sample_triangle z c, b)
      = ⟨F32.fin 1, F32.fin 0, F32.fin 0⟩ := by
  norm_num [tri_weights, sample_math, sample_barycentric, sample_triangle, F32.toRat]

theorem sample_weights_corner (z : ℚ) (c : Color) (b : TriangleBounds) :
    tri_weights sample_math 2 0 (sample_triangle z c, b)
      = ⟨F32.fin 0, F32.fin 1, F32.fin 0⟩ := by
  norm_num [tri_weights, sample_math, sample_barycentric, sample_triangle, F32.toRat]

theorem sample_depth_origin (z : ℚ) (c : Color) (b : TriangleBounds) :
    tri_depth sample_math 0 0 (sample_triangle z c, b) = F32.fin z := by
  rw [tri_depth, sample_weights_origin]
  norm_num [sample_math, sample_interpolate_depth, sample_triangle, F32.toRat]

theorem sample_depth_corner (z : ℚ) (c : Color) (b : TriangleBounds) :
    tri_depth sample_math 2 0 (sample_triangle z c, b) = F32.fin z := by
  rw [tri_depth, sample_weights_corner]
  norm_num [sample_math, sample_interpolate_depth, sample_triangle, F32.toRat]

theorem sample_color_origin (z : ℚ) (c : Color) (b : TriangleBounds) :
    tri_color sample_math 0 0 (sample_triangle z c, b) = c := by
  rw [tri_color, sample_weights_origin]
  norm_num [sample_math, sample_interpolate_colors, sample_triangle, F32.toRat]

theorem sample_color_corner (z : ℚ) (c : Color) (b : TriangleBounds) :
    tri_color sample_math 2 0 (sample_triangle z c, b) = c := by
  rw [tri_color, sample_weights_corner]
  norm_num [sample_math, sample_interpolate_colors, sample_triangle, F32.toRat]

theorem sample_covers_origin (z : ℚ) (c : Color) :
    covers sample_math 0 0 (sample_triangle z c, ⟨0, 2, 0, 2⟩) := by
  refine ⟨by norm_num [in_box], ?_⟩
  rw [sample_weights_origin]
  norm_num [F32.ne, outside_sentinel]

theorem sample_covers_corner (z : ℚ) (c : Color) :
    covers sample_math 2 0 (sample_triangle z c, ⟨0, 2, 0, 2⟩) := by
  refine ⟨by norm_num [in_box], ?_⟩
  rw [sample_weights_corner]
  norm_num [F32.ne, outside_sentinel]

theorem sample_scan_bounds_one (z : ℚ) (c : Color) (u : TriangleBounds) :
    scan_bounds sample_math u [sample_triangle z c] = ⟨0, 2, 0, 2⟩ := by
  have h := sample_pwb z c
  simp only [scan_bounds, projected_eq_map, List.map_cons, List.map_nil, h, global_bounds,
    List.foldl_nil]

theorem sample_scan_bounds_two (z1 z2 : ℚ) (c1 c2 : Color) (u : TriangleBounds) :
    scan_bounds sample_math u [sample_triangle z1 c1, sample_triangle z2 c2]
      = ⟨0, 2, 0, 2⟩ := by
  simp only [scan_bounds, projected_eq_map, List.map_cons, List.map_nil, sample_pwb,
    global_bounds, List.foldl_cons, List.foldl_nil, union_bounds, min_self, max_self]

theorem sample_weights_cases (a b c : Vec3) (p : ℚ × ℚ) :
    sample_barycentric a b c p = ⟨F32.fin (-1), F32.fin (-1), F32.fin (-1)⟩
      ∨ ∃ w0 w1, sample_barycentric a b c p = ⟨F32.fin w0, F32.fin w1, F32.fin (1 - w0 - w1)⟩ := by
  unfold sample_barycentric
  simp only
  split
  · exact Or.inl rfl
  · exact Or.inr ⟨_, _, rfl⟩

theorem sample_depth_of_covers (z : ℚ) (c : Color) (b : TriangleBounds) (x y : Int)
    (h : covers sample_math x y (sample_triangle z c, b)) :
    tri_depth sample_math x y (sample_triangle z c, b) = F32.fin z := by
  have hw : tri_weights sample_math x y (sample_triangle z c, b)
      = sample_barycentric (sample_triangle z c).v0 (sample_triangle z c).v1
          (sample_triangle z c).v2 ((x : ℚ), (y : ℚ)) := rfl
  rcases sample_weights_cases (sample_triangle z c).v0 (sample_triangle z c).v1
      (sample_triangle z c).v2 ((x : ℚ), (y : ℚ)) with h0 | ⟨w0, w1, h0⟩
  · have h2 := h.2
    rw [hw, h0] at h2
    simp [F32.ne, outside_sentinel] at h2
  · rw [tri_depth, hw, h0]
    simp only [sample_math, sample_interpolate_depth, sample_triangle, F32.toRat]
    congr 1
    ring

/-! ## Depth resolution within one batch -/

/-- C1, as amended: when two triangles A and B of a batch both cover a pixel,
with interpolated depths `dA < dB` both above the near-plane threshold `0.1f`
and `dA` below the initial depth `100.f`, the fragment color resolved for the
pixel is the interpolated color of A, for the batch `[A, B]` and for the batch
`[B, A]`. -/
theorem depth_resolution_two {P : Type} (tm : TriangleMath P) (A B : Triangle) (x y : Int)
    (hA : covers tm x y (project_with_bounds tm A))
    (_hB : covers tm x y (project_with_bounds tm B))
    (hlt : F32.lt (tri_depth tm x y (project_with_bounds tm A))
      (tri_depth tm x y (project_with_bounds tm B)) = true)
    (hnA : F32.gt (tri_depth tm x y (project_with_bounds tm A)) near_threshold = true)
    (_hnB : F32.gt (tri_depth tm x y (project_with_bounds tm B)) near_threshold = true)
    (hfar : F32.lt (tri_depth tm x y (project_with_bounds tm A)) far_sentinel = true) :
    resolve_fragment tm (projected tm [A, B]) x y
        = tri_color tm x y (project_with_bounds tm A)
      ∧ resolve_fragment tm (projected tm [B, A]) x y
        = tri_color tm x y (project_with_bounds tm A) := by
  have hcA : is_candidate tm x y (project_with_bounds tm A) := ⟨hA, hnA, hfar⟩
  constructor
  · have h := resolve_of_split tm x y [] [project_with_bounds tm B]
      (project_with_bounds tm A) hcA (by simp)
      (by
        intro u hu _
        rw [List.mem_singleton] at hu
        subst hu
        exact f32_lt_asymm hlt)
    simpa [projected_eq_map] using h
  · have h := resolve_of_split tm x y [project_with_bounds tm B] []
      (project_with_bounds tm A) hcA
      (by
        intro u hu _
        rw [List.mem_singleton] at hu
        subst hu
        exact hlt)
      (by simp)
    simpa [projected_eq_map] using h

/-- Witness of C1 as amended: the sample triangle at depth 1 (red) and at
depth 2 (blue), at pixel (0, 0). -/
theorem depth_resolution_two_witness :
    resolve_fragment sample_math
        (projected sample_math [sample_triangle 1 ⟨255, 0, 0⟩, sample_triangle 2 ⟨0, 0, 255⟩])
        0 0
        = tri_color sample_math 0 0
            (project_with_bounds sample_math (sample_triangle 1 ⟨255, 0, 0⟩))
      ∧ resolve_fragment sample_math
        (projected sample_math [sample_triangle 2 ⟨0, 0, 255⟩, sample_triangle 1 ⟨255, 0, 0⟩])
        0 0
        = tri_color sample_math 0 0
            (project_with_bounds sample_math (sample_triangle 1 ⟨255, 0, 0⟩)) :=
  depth_resolution_two sample_math (sample_triangle 1 ⟨255, 0, 0⟩)
    (sample_triangle 2 ⟨0, 0, 255⟩) 0 0
    (by rw [sample_pwb]; exact sample_covers_origin _ _)
    (by rw [sample_pwb]; exact sample_covers_origin _ _)
    (by rw [sample_pwb, sample_pwb, sample_depth_origin, sample_depth_origin]
        norm_num [F32.lt])
    (by rw [sample_pwb, sample_depth_origin]; norm_num [F32.gt, F32.lt, near_threshold])
    (by rw [sample_pwb, sample_depth_origin]; norm_num [F32.gt, F32.lt, near_threshold])
    (by rw [sample_pwb, sample_depth_origin]; norm_num [F32.lt, far_sentinel])

/-- Counterexample to C1 as stated: the sample triangle at depth 150 (red)
and at depth 200 (blue) both cover the scanned pixel (0, 0), with
`150 < 200` and both depths above `0.1f`, yet the resolved color is
(0,0,0) and not the red of the closer triangle. -/
theorem depth_resolution_counterexample :
    scanned (scan_bounds sample_math sample_uninit
        [sample_triangle 150 ⟨255, 0, 0⟩, sample_triangle 200 ⟨0, 0, 255⟩]) 0 0
      ∧ covers sample_math 0 0
          (project_with_bounds sample_math (sample_triangle 150 ⟨255, 0, 0⟩))
      ∧ covers sample_math 0 0
          (project_with_bounds sample_math (sample_triangle 200 ⟨0, 0, 255⟩))
      ∧ F32.lt
          (tri_depth sample_math 0 0
            (project_with_bounds sample_math (sample_triangle 150 ⟨255, 0, 0⟩)))
          (tri_depth sample_math 0 0
            (project_with_bounds sample_math (sample_triangle 200 ⟨0, 0, 255⟩))) = true
      ∧ F32.gt
          (tri_depth sample_math 0 0
            (project_with_bounds sample_math (sample_triangle 150 ⟨255, 0, 0⟩)))
          near_threshold = true
      ∧ F32.gt
          (tri_depth sample_math 0 0
            (project_with_bounds sample_math (sample_triangle 200 ⟨0, 0, 255⟩)))
          near_threshold = true
      ∧ tri_color sample_math 0 0
          (project_with_bounds sample_math (sample_triangle 150 ⟨255, 0, 0⟩)) = ⟨255, 0, 0⟩
      ∧ resolve_fragment sample_math
          (projected sample_math
            [sample_triangle 150 ⟨255, 0, 0⟩, sample_triangle 200 ⟨0, 0, 255⟩]) 0 0
          = ⟨0, 0, 0⟩ := by
  refine ⟨?_, ?_, ?_, ?_, ?_, ?_, ?_, ?_⟩
  · rw [sample_scan_bounds_two]
    norm_num [scanned]
  · rw [sample_pwb]; exact sample_covers_origin _ _
  · rw [sample_pwb]; exact sample_covers_origin _ _
  · rw [sample_pwb, sample_pwb, sample_depth_origin, sample_depth_origin]
    norm_num [F32.lt]
  · rw [sample_pwb, sample_depth_origin]; norm_num [F32.gt, F32.lt, near_threshold]
  · rw [sample_pwb, sample_depth_origin]; norm_num [F32.gt, F32.lt, near_threshold]
  · rw [sample_pwb, sample_color_origin]
  · apply resolve_no_candidate
    intro u hu hc
    simp only [projected_eq_map, List.map_cons, List.map_nil, sample_pwb, List.mem_cons,
      List.mem_singleton, List.not_mem_nil, or_false] at hu
    rcases hu with rfl | rfl
    · have := hc.2.2
      rw [sample_depth_origin] at this
      norm_num [F32.lt, far_sentinel] at this
    · have := hc.2.2
      rw [sample_depth_origin] at this
      norm_num [F32.lt, far_sentinel] at this

/-- C2: a triangle whose interpolated depth is at most the near-plane
threshold `0.1f` at every pixel it covers is never accepted by the triangle
loop, whatever the state and the pixel; the color resolved for a batch is the
one resolved without that triangle; and for the batch of that triangle alone
`render_triangles` makes no `set_pixel` call. -/
theorem near_plane_filter {P : Type} (tm : TriangleMath P) (t : Triangle)
    (h : ∀ x y, covers tm x y (project_with_bounds tm t) →
      F32.le (tri_depth tm x y (project_with_bounds tm t)) near_threshold = true) :
    (∀ x y st, fragment_step tm x y st (project_with_bounds tm t) = st)
      ∧ (∀ pre post x y, resolve_fragment tm (projected tm (pre ++ t :: post)) x y
          = resolve_fragment tm (projected tm (pre ++ post)) x y)
      ∧ (∀ uninit, render_calls tm uninit [t] = []) := by
  have hstep : ∀ x y st, fragment_step tm x y st (project_with_bounds tm t) = st := by
    intro x y st
    by_cases hc : covers tm x y (project_with_bounds tm t)
    · exact fragment_step_reject_near tm x y st _ (f32_not_lt_of_le (h x y hc))
    · exact fragment_step_reject_cover tm x y st _ hc
  refine ⟨hstep, ?_, ?_⟩
  · intro pre post x y
    simp only [resolve_fragment, projected_eq_map, List.map_append, List.map_cons,
      List.foldl_append, List.foldl_cons, hstep]
  · intro uninit
    rw [render_calls_eq_scan, List.eq_nil_iff_forall_not_mem]
    intro c hc
    rw [mem_scan_calls] at hc
    have hd := hc.2.2.2
    have hres : resolve_fragment tm (projected tm [t]) c.x c.y = ⟨0, 0, 0⟩ := by
      simp only [resolve_fragment, projected_eq_map, List.map_cons, List.map_nil,
        List.foldl_cons, List.foldl_nil, hstep]
      rfl
    rw [hres] at hd
    simp [drawn] at hd

/-- Witness of C2: the sample triangle at constant depth 1/20, below the
near-plane threshold at every pixel it covers. -/
theorem near_plane_filter_witness :
    (∀ x y st, fragment_step sample_math x y st
        (project_with_bounds sample_math (sample_triangle (1 / 20) ⟨255, 0, 0⟩)) = st)
      ∧ (∀ pre post x y,
          resolve_fragment sample_math
            (projected sample_math (pre ++ sample_triangle (1 / 20) ⟨255, 0, 0⟩ :: post)) x y
          = resolve_fragment sample_math (projected sample_math (pre ++ post)) x y)
      ∧ (∀ uninit, render_calls sample_math uninit [sample_triangle (1 / 20) ⟨255, 0, 0⟩] = []) :=
  near_plane_filter sample_math (sample_triangle (1 / 20) ⟨255, 0, 0⟩)
    (by
      intro x y hc
      rw [sample_pwb] at hc ⊢
      rw [sample_depth_of_covers _ _ _ _ _ hc]
      norm_num [F32.le, near_threshold])

/-- C9: at every pixel, with a candidate being a triangle of the batch whose
bounds contain the pixel (all four sides included), whose barycentric result
is not the outside sentinel and whose interpolated depth `d` satisfies
`0.1f < d < 100.f`: the resolved color is (0,0,0) when the batch has no
candidate; it is the interpolated color of the candidate that is strictly
closer than every earlier candidate and not farther than any later one (the
earliest candidate of minimal depth), and such a candidate exists as soon as
there is a candidate; and a triangle whose depth is not below `100.f` is not
drawn when alone. -/
theorem exact_winner {P : Type} (tm : TriangleMath P) (batch : List Triangle) (x y : Int) :
    ((∀ u ∈ projected tm batch, ¬ is_candidate tm x y u) →
        resolve_fragment tm (projected tm batch) x y = ⟨0, 0, 0⟩)
      ∧ (∀ pre t post, projected tm batch = pre ++ t :: post → is_candidate tm x y t →
          (∀ u ∈ pre, is_candidate tm x y u →
            F32.lt (tri_depth tm x y t) (tri_depth tm x y u) = true) →
          (∀ u ∈ post, is_candidate tm x y u →
            F32.lt (tri_depth tm x y u) (tri_depth tm x y t) = false) →
          resolve_fragment tm (projected tm batch) x y = tri_color tm x y t)
      ∧ ((∃ u ∈ projected tm batch, is_candidate tm x y u) →
          ∃ pre t post, projected tm batch = pre ++ t :: post ∧ is_candidate tm x y t
            ∧ (∀ u ∈ pre, is_candidate tm x y u →
                F32.lt (tri_depth tm x y t) (tri_depth tm x y u) = true)
            ∧ (∀ u ∈ post, is_candidate tm x y u →
                F32.lt (tri_depth tm x y u) (tri_depth tm x y t) = false)
            ∧ resolve_fragment tm (projected tm batch) x y = tri_color tm x y t)
      ∧ (∀ t uninit, F32.lt (tri_depth tm x y (project_with_bounds tm t)) far_sentinel = false →
          resolve_fragment tm (projected tm [t]) x y = ⟨0, 0, 0⟩
            ∧ ∀ c ∈ render_calls tm uninit [t], ¬ (c.x = x ∧ c.y = y)) := by
  refine ⟨resolve_no_candidate tm x y _, ?_, ?_, ?_⟩
  · intro pre t post heq ht hpre hpost
    rw [heq]
    exact resolve_of_split tm x y pre post t ht hpre hpost
  · intro h
    obtain ⟨pre, t, post, heq, ht, hpre, hpost⟩ := exists_earliest_closest tm x y _ h
    refine ⟨pre, t, post, heq, ht, hpre, hpost, ?_⟩
    rw [heq]
    exact resolve_of_split tm x y pre post t ht hpre hpost
  · intro t uninit hfar
    have hres : resolve_fragment tm (projected tm [t]) x y = ⟨0, 0, 0⟩ := by
      apply resolve_no_candidate
      intro u hu hc
      simp only [projected_eq_map, List.map_cons, List.map_nil, List.mem_singleton] at hu
      subst hu
      have := hc.2.2
      rw [hfar] at this
      exact Bool.false_ne_true this
    refine ⟨hres, ?_⟩
    intro c hc hxy
    rw [render_calls_eq_scan, mem_scan_calls] at hc
    have hd := hc.2.2.2
    rw [hxy.1, hxy.2, hres] at hd
    simp [drawn] at hd

/-- Witness of C9: for the sample triangle at depth 1 (red) followed by the
same triangle at depth 1 (blue), equal depths, the earlier one wins pixel
(0, 0). -/
theorem exact_winner_witness :
    resolve_fragment sample_math
      (projected sample_math [sample_triangle 1 ⟨255, 0, 0⟩, sample_triangle 1 ⟨0, 0, 255⟩])
      0 0 = ⟨255, 0, 0⟩ := by
  have hcand : ∀ c, is_candidate sample_math 0 0 (sample_triangle 1 c, ⟨0, 2, 0, 2⟩) := by
    intro c
    refine ⟨sample_covers_origin _ _, ?_, ?_⟩
    · rw [sample_depth_origin]; norm_num [F32.lt, near_threshold]
    · rw [sample_depth_origin]; norm_num [F32.lt, far_sentinel]
  have h := (exact_winner sample_math
      [sample_triangle 1 ⟨255, 0, 0⟩, sample_triangle 1 ⟨0, 0, 255⟩] 0 0).2.1
    [] (sample_triangle 1 ⟨255, 0, 0⟩, ⟨0, 2, 0, 2⟩)
    [(sample_triangle 1 ⟨0, 0, 255⟩, ⟨0, 2, 0, 2⟩)]
    (by simp [projected_eq_map, sample_pwb]) (hcand _) (by simp)
    (by
      intro u hu _
      rw [List.mem_singleton] at hu
      subst hu
      rw [sample_depth_origin, sample_depth_origin]
      norm_num [F32.lt])
  rw [sample_color_origin] at h
  exact h

/-! ## Every scanned pixel is visited once -/

theorem nodup_row_calls {P : Type} (tm : TriangleMath P)
    (tris : List (Triangle × TriangleBounds)) (xs : List Int) (y : Int) (h : xs.Nodup) :
    (row_calls tm tris xs y).Nodup := by
  unfold row_calls
  apply List.Nodup.filterMap _ h
  intro a a' b hb hb'
  by_cases ha : drawn (resolve_fragment tm tris a y) = true
  · by_cases ha' : drawn (resolve_fragment tm tris a' y) = true
    · simp only [ha, ha', if_true, Option.mem_def, Option.some.injEq] at hb hb'
      rw [← hb] at hb'
      exact (congrArg PixelCall.x hb').symm
    · simp [ha'] at hb'
  · simp [ha] at hb

theorem nodup_grid_calls {P : Type} (tm : TriangleMath P)
    (tris : List (Triangle × TriangleBounds)) (ys xs : List Int) (hy : ys.Nodup)
    (hx : xs.Nodup) : (grid_calls tm tris ys xs).Nodup := by
  unfold grid_calls
  rw [List.nodup_flatMap]
  refine ⟨fun y _ => nodup_row_calls tm tris xs y hx, ?_⟩
  refine List.Pairwise.imp ?_ hy
  intro y1 y2 hne c h1 h2
  rw [mem_row_calls] at h1 h2
  exact hne (h1.2.1.symm.trans h2.2.1)

theorem nodup_scan_calls {P : Type} (tm : TriangleMath P) (uninit : TriangleBounds)
    (batch : List Triangle) : (scan_calls tm uninit batch).Nodup :=
  nodup_grid_calls tm _ _ _ (nodup_loop_range _ _) (nodup_loop_range _ _)

theorem nodup_all_eq {α : Type} [DecidableEq α] (a : α) (l : List α) (hn : l.Nodup)
    (h : ∀ b ∈ l, b = a) : l = if a ∈ l then [a] else [] := by
  cases l with
  | nil => simp
  | cons b rest =>
    have hb : b = a := h b (List.mem_cons_self b rest)
    subst hb
    have hrest : rest = [] := by
      cases rest with
      | nil => rfl
      | cons c r =>
        have hc : c = b := h c (List.mem_cons_of_mem b (List.mem_cons_self c r))
        subst hc
        simp at hn
    subst hrest
    simp

/-! ## The terminal surface under a list of calls -/

theorem set_pixel_other (SW SH : Nat) (gl : ℚ) (color : Color) (x y : Int)
    (sb : ScreenBuffer SW SH) (i : Fin SH) (j : Fin (SW + 1))
    (h : ¬ ((i.val : Int) = y ∧ (j.val : Int) = x)) :
    set_pixel SW SH gl color x y sb i j = sb i j := by
  unfold set_pixel
  split
  · rfl
  · simp only [h, if_false]

theorem set_pixel_hit (SW SH : Nat) (gl : ℚ) (color : Color)
    (sb : ScreenBuffer SW SH) (i : Fin SH) (j : Fin (SW + 1)) (hj : j.val < SW) :
    set_pixel SW SH gl color (j.val : Int) (i.val : Int) sb i j = glyph gl color := by
  unfold set_pixel
  have hi := i.isLt
  rw [if_neg (by omega)]
  simp

theorem apply_calls_cons {σ : Type} (sp : Color → Int → Int → σ → σ) (c : PixelCall)
    (rest : List PixelCall) (s : σ) :
    apply_calls sp (c :: rest) s = apply_calls sp rest (sp c.color c.x c.y s) := rfl

theorem terminal_unchanged (SW SH : Nat) (gl : ℚ) (calls : List PixelCall)
    (sb : ScreenBuffer SW SH) (i : Fin SH) (j : Fin (SW + 1))
    (h : ∀ c ∈ calls, ¬ (c.x = (j.val : Int) ∧ c.y = (i.val : Int))) :
    apply_calls (set_pixel SW SH gl) calls sb i j = sb i j := by
  induction calls generalizing sb with
  | nil => rfl
  | cons c rest ih =>
    rw [apply_calls_cons, ih _ (fun d hd => h d (List.mem_cons_of_mem c hd))]
    apply set_pixel_other
    intro hc
    exact h c (List.mem_cons_self c rest) ⟨hc.2.symm, hc.1.symm⟩

theorem terminal_written (SW SH : Nat) (gl : ℚ) (calls : List PixelCall)
    (sb : ScreenBuffer SW SH) (i : Fin SH) (j : Fin (SW + 1)) (col : Color)
    (hj : j.val < SW)
    (hex : ∃ c ∈ calls, c.x = (j.val : Int) ∧ c.y = (i.val : Int))
    (hcol : ∀ c ∈ calls, c.x = (j.val : Int) → c.y = (i.val : Int) → c.color = col) :
    apply_calls (set_pixel SW SH gl) calls sb i j = glyph gl col := by
  induction calls generalizing sb with
  | nil =>
    obtain ⟨c, hc, _⟩ := hex
    simp at hc
  | cons c rest ih =>
    rw [apply_calls_cons]
    by_cases hrest : ∃ d ∈ rest, d.x = (j.val : Int) ∧ d.y = (i.val : Int)
    · exact ih _ hrest (fun d hd => hcol d (List.mem_cons_of_mem c hd))
    · have hno : ∀ d ∈ rest, ¬ (d.x = (j.val : Int) ∧ d.y = (i.val : Int)) :=
        fun d hd hxy => hrest ⟨d, hd, hxy⟩
      rw [terminal_unchanged SW SH gl rest _ i j hno]
      obtain ⟨d, hd, hdx, hdy⟩ := hex
      rcases List.mem_cons.1 hd with hdc | hdr
      · subst hdc
        rw [hdx, hdy, hcol d (List.mem_cons_self d rest) hdx hdy]
        exact set_pixel_hit SW SH gl col sb i j hj
      · exact absurd ⟨hdx, hdy⟩ (hno d hdr)

/-! ## Pixel emission -/

/-- C3: for every batch and every pixel `(x, y)`, the `set_pixel` calls of
`render_triangles` at `(x, y)` are exactly one call, with the resolved
fragment color, when the pixel is scanned and that color is not (0,0,0), and
no call otherwise; and on the terminal surface a cell whose pixel is not
scanned or resolves to (0,0,0) is left unchanged by the call. -/
theorem pixel_emission {P : Type} (tm : TriangleMath P) (uninit : TriangleBounds)
    (batch : List Triangle) (x y : Int) :
    (render_calls tm uninit batch).filter (fun c => decide (c.x = x ∧ c.y = y))
        = (if scanned (scan_bounds tm uninit batch) x y
              ∧ resolve_fragment tm (projected tm batch) x y ≠ ⟨0, 0, 0⟩
            then [⟨resolve_fragment tm (projected tm batch) x y, x, y⟩] else [])
      ∧ (∀ (SW SH : Nat) (gl : ℚ) (sb : ScreenBuffer SW SH) (i : Fin SH) (j : Fin (SW + 1)),
          (¬ scanned (scan_bounds tm uninit batch) (j.val : Int) (i.val : Int)
            ∨ resolve_fragment tm (projected tm batch) (j.val : Int) (i.val : Int) = ⟨0, 0, 0⟩) →
          render_triangles tm (set_pixel SW SH gl) uninit batch sb i j = sb i j) := by
  constructor
  · rw [render_calls_eq_scan]
    have hn : ((scan_calls tm uninit batch).filter
        (fun c => decide (c.x = x ∧ c.y = y))).Nodup :=
      (nodup_scan_calls tm uninit batch).filter _
    have hall : ∀ b ∈ (scan_calls tm uninit batch).filter
        (fun c => decide (c.x = x ∧ c.y = y)),
        b = (⟨resolve_fragment tm (projected tm batch) x y, x, y⟩ : PixelCall) := by
      intro b hb
      rw [List.mem_filter, mem_scan_calls] at hb
      obtain ⟨⟨_, _, hc, _⟩, hxy⟩ := hb
      simp only [decide_eq_true_eq] at hxy
      cases b with
      | mk bc bx by_ =>
        simp only at hc hxy
        rw [hc, hxy.1, hxy.2]
    rw [nodup_all_eq _ _ hn hall]
    have hmem : (⟨resolve_fragment tm (projected tm batch) x y, x, y⟩ : PixelCall)
          ∈ (scan_calls tm uninit batch).filter (fun c => decide (c.x = x ∧ c.y = y))
        ↔ scanned (scan_bounds tm uninit batch) x y
            ∧ resolve_fragment tm (projected tm batch) x y ≠ ⟨0, 0, 0⟩ := by
      rw [List.mem_filter, mem_scan_calls, ← drawn_iff_ne_black]
      simp [scanned, and_assoc]
    by_cases hs : scanned (scan_bounds tm uninit batch) x y
        ∧ resolve_fragment tm (projected tm batch) x y ≠ ⟨0, 0, 0⟩
    · rw [if_pos hs, if_pos (hmem.2 hs)]
    · rw [if_neg hs, if_neg (fun h => hs (hmem.1 h))]
  · intro SW SH gl sb i j h
    rw [render_triangles_eq_apply]
    apply terminal_unchanged
    intro c hc hxy
    rw [mem_scan_calls, hxy.1, hxy.2, drawn_iff_ne_black] at hc
    rcases h with h | h
    · exact h ⟨hc.1, hc.2.1⟩
    · exact hc.2.2.2 h

/-- Witness of C3: the sample triangle alone; pixel (0, 0) receives one red
call, and the cell of the unscanned pixel (5, 5) of a 125 x 62 buffer is left
unchanged. -/
theorem pixel_emission_witness :
    (render_calls sample_math sample_uninit [sample_triangle 1 ⟨255, 0, 0⟩]).filter
        (fun c => decide (c.x = 0 ∧ c.y = 0)) = [⟨⟨255, 0, 0⟩, 0, 0⟩]
      ∧ render_triangles sample_math (set_pixel 125 62 init_grayscale_len) sample_uninit
          [sample_triangle 1 ⟨255, 0, 0⟩] (clear_screen_buffer 125 62) 5 5
        = clear_screen_buffer 125 62 5 5 := by
  have hres : resolve_fragment sample_math
      (projected sample_math [sample_triangle 1 ⟨255, 0, 0⟩]) 0 0 = ⟨255, 0, 0⟩ := by
    have h := resolve_of_split sample_math 0 0 [] []
      (sample_triangle 1 ⟨255, 0, 0⟩, ⟨0, 2, 0, 2⟩)
      ⟨sample_covers_origin _ _,
        by rw [sample_depth_origin]; norm_num [F32.lt, near_threshold],
        by rw [sample_depth_origin]; norm_num [F32.lt, far_sentinel]⟩
      (by simp) (by simp)
    rw [sample_color_origin] at h
    simpa [projected_eq_map, sample_pwb] using h
  have h := pixel_emission sample_math sample_uninit [sample_triangle 1 ⟨255, 0, 0⟩] 0 0
  refine ⟨?_, ?_⟩
  · rw [h.1, hres, if_pos]
    refine ⟨?_, by decide⟩
    rw [sample_scan_bounds_one]
    norm_num [scanned]
  · apply h.2 125 62 init_grayscale_len (clear_screen_buffer 125 62) 5 5
    left
    rw [sample_scan_bounds_one]
    decide

/-! ## The terminal `set_pixel` -/

/-- C6: the terminal `set_pixel` leaves the whole screen buffer unchanged when
`x < 0`, `x >= SW`, `y < 0` or `y >= SH`; in every case it leaves unchanged
every cell other than `screen_buffer[y][x]`, and every cell of column `SW`
(the terminating NUL of each row). -/
theorem set_pixel_bounds (SW SH : Nat) (gl : ℚ) (color : Color) (x y : Int)
    (sb : ScreenBuffer SW SH) :
    ((x < 0 ∨ x ≥ (SW : Int) ∨ y < 0 ∨ y ≥ (SH : Int)) →
        set_pixel SW SH gl color x y sb = sb)
      ∧ (∀ (i : Fin SH) (j : Fin (SW + 1)), ¬ ((i.val : Int) = y ∧ (j.val : Int) = x) →
          set_pixel SW SH gl color x y sb i j = sb i j)
      ∧ (∀ (i : Fin SH) (j : Fin (SW + 1)), j.val = SW →
          set_pixel SW SH gl color x y sb i j = sb i j) := by
  refine ⟨?_, ?_, ?_⟩
  · intro h
    unfold set_pixel
    rw [if_pos h]
  · intro i j h
    exact set_pixel_other SW SH gl color x y sb i j h
  · intro i j hj
    by_cases hx : x < 0 ∨ x ≥ (SW : Int) ∨ y < 0 ∨ y ≥ (SH : Int)
    · unfold set_pixel
      rw [if_pos hx]
    · apply set_pixel_other
      intro h
      omega

/-- Witness of C6: on a cleared 125 x 62 buffer, a call at column 125 changes
nothing, and a call at (3, 4) leaves cell [0][0] unchanged. -/
theorem set_pixel_bounds_witness :
    set_pixel 125 62 init_grayscale_len ⟨255, 255, 255⟩ 125 0 (clear_screen_buffer 125 62)
        = clear_screen_buffer 125 62
      ∧ set_pixel 125 62 init_grayscale_len ⟨255, 255, 255⟩ 3 4
          (clear_screen_buffer 125 62) 0 0 = clear_screen_buffer 125 62 0 0 :=
  ⟨(set_pixel_bounds 125 62 init_grayscale_len ⟨255, 255, 255⟩ 125 0
      (clear_screen_buffer 125 62)).1 (by decide),
    (set_pixel_bounds 125 62 init_grayscale_len ⟨255, 255, 255⟩ 3 4
      (clear_screen_buffer 125 62)).2.1 0 0 (by decide)⟩

/-! ## Two draw calls in sequence -/

/-- C8: when batch A and then batch B are rendered on the terminal screen
buffer by two `render_triangles` calls, a cell of an in-range pixel for which
the call for B makes a `set_pixel` call ends up holding the glyph of the
color B resolves there, whatever batch A is; and a cell for which the call
for B makes no `set_pixel` call keeps the value it had after the call for
A. -/
theorem cross_call_composition {P : Type} (tm : TriangleMath P) (SW SH : Nat) (gl : ℚ)
    (uA uB : TriangleBounds) (A B : List Triangle) (sb : ScreenBuffer SW SH)
    (i : Fin SH) (j : Fin (SW + 1)) :
    ((∃ c ∈ render_calls tm uB B, c.x = (j.val : Int) ∧ c.y = (i.val : Int)) → j.val < SW →
        render_triangles tm (set_pixel SW SH gl) uB B
            (render_triangles tm (set_pixel SW SH gl) uA A sb) i j
          = glyph gl (resolve_fragment tm (projected tm B) (j.val : Int) (i.val : Int)))
      ∧ ((∀ c ∈ render_calls tm uB B, ¬ (c.x = (j.val : Int) ∧ c.y = (i.val : Int))) →
        render_triangles tm (set_pixel SW SH gl) uB B
            (render_triangles tm (set_pixel SW SH gl) uA A sb) i j
          = render_triangles tm (set_pixel SW SH gl) uA A sb i j) := by
  constructor
  · intro hex hj
    rw [render_calls_eq_scan] at hex
    rw [render_triangles_eq_apply tm _ uB B]
    apply terminal_written SW SH gl _ _ i j _ hj hex
    intro c hc hx hy
    rw [mem_scan_calls] at hc
    rw [hc.2.2.1, hx, hy]
  · intro hno
    rw [render_calls_eq_scan] at hno
    rw [render_triangles_eq_apply tm _ uB B]
    exact terminal_unchanged SW SH gl _ _ i j hno

/-- Witness of C8: the sample triangle at depth 1 (red) is drawn first and
the same triangle at depth 2 (blue) second; cell [0][0] ends with the glyph
of blue, although the first triangle is closer. -/
theorem cross_call_composition_witness :
    render_triangles sample_math (set_pixel 125 62 init_grayscale_len) sample_uninit
        [sample_triangle 2 ⟨0, 0, 255⟩]
        (render_triangles sample_math (set_pixel 125 62 init_grayscale_len) sample_uninit
          [sample_triangle 1 ⟨255, 0, 0⟩] (clear_screen_buffer 125 62)) 0 0
      = glyph init_grayscale_len ⟨0, 0, 255⟩ := by
  have hres : resolve_fragment sample_math
      (projected sample_math [sample_triangle 2 ⟨0, 0, 255⟩]) 0 0 = ⟨0, 0, 255⟩ := by
    have h := resolve_of_split sample_math 0 0 [] []
      (sample_triangle 2 ⟨0, 0, 255⟩, ⟨0, 2, 0, 2⟩)
      ⟨sample_covers_origin _ _,
        by rw [sample_depth_origin]; norm_num [F32.lt, near_threshold],
        by rw [sample_depth_origin]; norm_num [F32.lt, far_sentinel]⟩
      (by simp) (by simp)
    rw [sample_color_origin] at h
    simpa [projected_eq_map, sample_pwb] using h
  have h := (cross_call_composition sample_math 125 62 init_grayscale_len sample_uninit
    sample_uninit [sample_triangle 1 ⟨255, 0, 0⟩] [sample_triangle 2 ⟨0, 0, 255⟩]
    (clear_screen_buffer 125 62) 0 0).1
    (by
      refine ⟨⟨⟨0, 0, 255⟩, 0, 0⟩, ?_, rfl, rfl⟩
      rw [render_calls_eq_scan, mem_scan_calls, sample_scan_bounds_one]
      refine ⟨by decide, by decide, ?_, ?_⟩
      · exact hres.symm
      · show drawn (resolve_fragment sample_math
          (projected sample_math [sample_triangle 2 ⟨0, 0, 255⟩]) 0 0) = true
        rw [hres]
        decide)
    (by decide)
  rw [h]
  exact congrArg (glyph init_grayscale_len) hres

/-! ## The mesh renderers -/

theorem transform_loop_eq {P : Type} (tm : TriangleMath P) (pos rot : Vec3)
    (l out : List Triangle) :
    transform_loop tm pos rot l out
      = out ++ l.map (fun t => tm.transform_triangle t pos rot) := by
  induction l generalizing out with
  | nil => simp [transform_loop]
  | cons t rest ih => simp [transform_loop, ih]

theorem transform_shade_loop_eq {P : Type} (tm : TriangleMath P) (pos rot light : Vec3)
    (l out : List Triangle) :
    transform_shade_loop tm pos rot light l out
      = out ++ (l.map (fun t => tm.transform_triangle t pos rot)).map
          (fun t => tm.shade_triangle t light) := by
  induction l generalizing out with
  | nil => simp [transform_shade_loop]
  | cons t rest ih => simp [transform_shade_loop, ih]

/-- C5: for a mesh whose `triangle_count` is 0, `render_mesh` and
`render_mesh_shaded` (for every light) return at their first statement: no
batch is built and `render_triangles` is not invoked, the output surface is
returned unchanged for every `set_pixel`, and in particular no `set_pixel`
call is recorded. -/
theorem empty_mesh_noop {P : Type} (tm : TriangleMath P) (m : Mesh)
    (h : m.triangle_count = 0) :
    render_mesh_batch tm m = none
      ∧ (∀ light, render_mesh_shaded_batch tm m light = none)
      ∧ (∀ (σ : Type) (sp : Color → Int → Int → σ → σ) (uninit : TriangleBounds) (s : σ),
          render_mesh tm sp uninit m s = s
            ∧ ∀ light, render_mesh_shaded tm sp uninit m light s = s)
      ∧ (∀ uninit light, render_mesh tm record_pixel uninit m [] = []
          ∧ render_mesh_shaded tm record_pixel uninit m light [] = []) := by
  have h1 : render_mesh_batch tm m = none := by
    unfold render_mesh_batch
    rw [if_pos h]
  have h2 : ∀ light, render_mesh_shaded_batch tm m light = none := by
    intro light
    unfold render_mesh_shaded_batch
    rw [if_pos h]
  refine ⟨h1, h2, ?_, ?_⟩
  · intro σ sp uninit s
    refine ⟨?_, ?_⟩
    · unfold render_mesh
      rw [h1]
    · intro light
      unfold render_mesh_shaded
      rw [h2]
  · intro uninit light
    refine ⟨?_, ?_⟩
    · unfold render_mesh
      rw [h1]
    · unfold render_mesh_shaded
      rw [h2]

/-- Witness of C5: the mesh without triangles, on a cleared 125 x 62 terminal
buffer. -/
theorem empty_mesh_noop_witness :
    render_mesh sample_math (set_pixel 125 62 init_grayscale_len) sample_uninit
        sample_empty_mesh (clear_screen_buffer 125 62) = clear_screen_buffer 125 62 :=
  ((empty_mesh_noop sample_math sample_empty_mesh rfl).2.2.1 _
    (set_pixel 125 62 init_grayscale_len) sample_uninit (clear_screen_buffer 125 62)).1

/-- C7: for a mesh with at least one triangle, `render_mesh` is
`render_triangles` on the stored triangles transformed in order, and
`render_mesh_shaded` is `render_triangles` on those transformed triangles
each passed through `shade_triangle` with the given light; hence, when
`shade_triangle` leaves each transformed triangle unchanged, the two
functions produce the same output. -/
theorem mesh_render_composition {P σ : Type} (tm : TriangleMath P)
    (sp : Color → Int → Int → σ → σ) (uninit : TriangleBounds) (m : Mesh) (light : Vec3)
    (s : σ) (h : 0 < m.triangle_count) :
    render_mesh tm sp uninit m s = render_triangles tm sp uninit (spec_mesh_batch tm m) s
      ∧ render_mesh_shaded tm sp uninit m light s
          = render_triangles tm sp uninit (spec_shaded_batch tm m light) s
      ∧ ((∀ t ∈ spec_mesh_batch tm m, tm.shade_triangle t light = t) →
          render_mesh_shaded tm sp uninit m light s = render_mesh tm sp uninit m s) := by
  have hne : ¬ m.triangle_count = 0 := by omega
  have h1 : render_mesh tm sp uninit m s
      = render_triangles tm sp uninit (spec_mesh_batch tm m) s := by
    unfold render_mesh render_mesh_batch
    rw [if_neg hne, transform_loop_eq]
    rfl
  have h2 : render_mesh_shaded tm sp uninit m light s
      = render_triangles tm sp uninit (spec_shaded_batch tm m light) s := by
    unfold render_mesh_shaded render_mesh_shaded_batch
    rw [if_neg hne, transform_shade_loop_eq]
    rfl
  refine ⟨h1, h2, ?_⟩
  intro hid
  rw [h1, h2]
  have : spec_shaded_batch tm m light = spec_mesh_batch tm m := by
    unfold spec_shaded_batch
    conv_rhs => rw [← List.map_id (spec_mesh_batch tm m)]
    exact List.map_congr_left (fun t ht => hid t ht)
  rw [this]

/-- Witness of C7: the mesh of one sample triangle, on the recording
surface, with the light of the frame loop; the sample shader leaves every
triangle unchanged. -/
theorem mesh_render_composition_witness :
    render_mesh_shaded sample_math record_pixel sample_uninit sample_mesh
        ⟨F32.fin 10, F32.fin 10, F32.fin 0⟩ []
      = render_mesh sample_math record_pixel sample_uninit sample_mesh [] :=
  (mesh_render_composition sample_math record_pixel sample_uninit sample_mesh
    ⟨F32.fin 10, F32.fin 10, F32.fin 0⟩ [] (by decide)).2.2 (fun _ _ => rfl)

/-! ## The scan stops before the last column and the last row -/

theorem no_call_on_max_edge {P : Type} (tm : TriangleMath P) (uninit : TriangleBounds)
    (batch : List Triangle) (c : PixelCall) (h : c ∈ render_calls tm uninit batch) :
    c.x < (scan_bounds tm uninit batch).xmax ∧ c.y < (scan_bounds tm uninit batch).ymax := by
  rw [render_calls_eq_scan, mem_scan_calls] at h
  exact ⟨h.2.1.2, h.1.2⟩

/-- C4, the code at the failing input: for the batch of the sample triangle
(corners (0,0), (2,0), (0,2), depth 1, red) the union bounds are
`0 <= x <= 2`, `0 <= y <= 2`; pixel (2, 0) lies in them, it passes the
per-triangle containment test, the triangle is a candidate there and the
triangle loop would resolve it to red, yet `render_triangles` makes no
`set_pixel` call for it. -/
theorem scan_skips_max_column :
    scan_bounds sample_math sample_uninit [sample_triangle 1 ⟨255, 0, 0⟩] = ⟨0, 2, 0, 2⟩
      ∧ in_box (scan_bounds sample_math sample_uninit [sample_triangle 1 ⟨255, 0, 0⟩]) 2 0
      ∧ is_candidate sample_math 2 0
          (project_with_bounds sample_math (sample_triangle 1 ⟨255, 0, 0⟩))
      ∧ resolve_fragment sample_math
          (projected sample_math [sample_triangle 1 ⟨255, 0, 0⟩]) 2 0 = ⟨255, 0, 0⟩
      ∧ (render_calls sample_math sample_uninit [sample_triangle 1 ⟨255, 0, 0⟩]).filter
          (fun c => decide (c.x = 2 ∧ c.y = 0)) = [] := by
  have hcand : is_candidate sample_math 2 0 (sample_triangle 1 ⟨255, 0, 0⟩, ⟨0, 2, 0, 2⟩) := by
    refine ⟨sample_covers_corner _ _, ?_, ?_⟩
    · rw [sample_depth_corner]; norm_num [F32.lt, near_threshold]
    · rw [sample_depth_corner]; norm_num [F32.lt, far_sentinel]
  refine ⟨sample_scan_bounds_one _ _ _, ?_, ?_, ?_, ?_⟩
  · rw [sample_scan_bounds_one]
    decide
  · rw [sample_pwb]
    exact hcand
  · have h := resolve_of_split sample_math 2 0 [] []
      (sample_triangle 1 ⟨255, 0, 0⟩, ⟨0, 2, 0, 2⟩) hcand (by simp) (by simp)
    rw [sample_color_corner] at h
    simpa [projected_eq_map, sample_pwb] using h
  · rw [List.filter_eq_nil_iff]
    intro c hc hxy
    simp only [decide_eq_true_eq] at hxy
    have := (no_call_on_max_edge sample_math sample_uninit _ c hc).1
    rw [sample_scan_bounds_one, hxy.1] at this
    exact absurd this (by decide)

/-! ## The glyph index of the terminal `set_pixel` -/

theorem rne_floor_le (q : ℚ) : ⌊q⌋ ≤ round_nearest_even q := by
  unfold round_nearest_even
  split_ifs <;> omega

theorem rne_le_floor_succ (q : ℚ) : round_nearest_even q ≤ ⌊q⌋ + 1 := by
  unfold round_nearest_even
  split_ifs <;> omega

theorem rne_intCast (n : ℤ) : round_nearest_even (n : ℚ) = n := by
  unfold round_nearest_even
  simp

theorem rne_mono {a b : ℚ} (h : a ≤ b) : round_nearest_even a ≤ round_nearest_even b := by
  have hf : ⌊a⌋ ≤ ⌊b⌋ := Int.floor_mono h
  rcases lt_or_eq_of_le hf with hlt | heq
  · calc round_nearest_even a ≤ ⌊a⌋ + 1 := rne_le_floor_succ a
      _ ≤ ⌊b⌋ := hlt
      _ ≤ round_nearest_even b := rne_floor_le b
  · unfold round_nearest_even
    rw [heq]
    split_ifs <;> first | omega | linarith

theorem rne_le_add_half (q : ℚ) : (round_nearest_even q : ℚ) ≤ q + 1 / 2 := by
  unfold round_nearest_even
  have h1 := Int.floor_le q
  split_ifs with h1 h2 <;> push_cast <;> linarith

theorem rne_nonneg {q : ℚ} (h : 0 ≤ q) : 0 ≤ round_nearest_even q :=
  le_trans (Int.floor_nonneg.2 h) (rne_floor_le q)

theorem two_zpow_pos (k : ℤ) : (0 : ℚ) < 2 ^ k := zpow_pos (by norm_num) k

theorem f32_nonneg {q : ℚ} (h : 0 ≤ q) : 0 ≤ f32 q := by
  unfold f32
  apply mul_nonneg
  · exact_mod_cast rne_nonneg (div_nonneg h (le_of_lt (two_zpow_pos _)))
  · exact le_of_lt (two_zpow_pos _)

theorem f32_zero : f32 0 = 0 := by
  simp [f32, round_nearest_even]

theorem log_bounds {q : ℚ} (hq : 0 < q) :
    (2 : ℚ) ^ Int.log 2 q ≤ q ∧ q < (2 : ℚ) ^ (Int.log 2 q + 1) := by
  have h1 := Int.zpow_log_le_self (b := 2) (by norm_num) hq
  have h2 := Int.lt_zpow_succ_log_self (b := 2) (by norm_num) q
  simp only [Nat.cast_ofNat] at h1 h2
  exact ⟨h1, h2⟩

theorem ulp_exponent_mono {a b : ℚ} (ha : 0 < a) (h : a ≤ b) :
    ulp_exponent a ≤ ulp_exponent b := by
  unfold ulp_exponent
  rw [abs_of_pos ha, abs_of_pos (lt_of_lt_of_le ha h)]
  have := Int.log_mono_right (b := 2) ha h
  omega

theorem scaled_lt {q : ℚ} (hq : 0 < q) : q / 2 ^ ulp_exponent q < 2 ^ (24 : ℤ) := by
  rw [div_lt_iff₀ (two_zpow_pos _), ← zpow_add₀ (by norm_num : (2 : ℚ) ≠ 0)]
  refine lt_of_lt_of_le (log_bounds hq).2 ?_
  apply zpow_le_zpow_right₀ (by norm_num)
  unfold ulp_exponent
  rw [abs_of_pos hq]
  omega

theorem f32_le_binade_top {q : ℚ} (hq : 0 < q) : f32 q ≤ 2 ^ (ulp_exponent q + 24) := by
  unfold f32
  have h1 : round_nearest_even (q / 2 ^ ulp_exponent q) ≤ 2 ^ 24 := by
    have := rne_mono (le_of_lt (scaled_lt hq))
    have h2 : ((2 : ℚ) ^ (24 : ℤ)) = (((2 ^ 24 : ℤ)) : ℚ) := by norm_num
    rw [h2, rne_intCast] at this
    exact this
  have h3 : (round_nearest_even (q / 2 ^ ulp_exponent q) : ℚ) ≤ 2 ^ (24 : ℤ) := by
    have : (round_nearest_even (q / 2 ^ ulp_exponent q) : ℚ) ≤ ((2 ^ 24 : ℤ) : ℚ) := by
      exact_mod_cast h1
    refine le_trans this ?_
    norm_num
  rw [zpow_add₀ (by norm_num : (2 : ℚ) ≠ 0), mul_comm ((2:ℚ) ^ ulp_exponent q)]
  exact mul_le_mul_of_nonneg_right h3 (le_of_lt (two_zpow_pos _))

theorem f32_ge_binade_bottom {q : ℚ} (hq : 0 < q) (hn : -126 < Int.log 2 q) :
    (2 : ℚ) ^ (ulp_exponent q + 23) ≤ f32 q := by
  have hE : ulp_exponent q + 23 = Int.log 2 q := by
    unfold ulp_exponent
    rw [abs_of_pos hq]
    omega
  have hs : (2 : ℚ) ^ (23 : ℤ) ≤ q / 2 ^ ulp_exponent q := by
    rw [le_div_iff₀ (two_zpow_pos _), ← zpow_add₀ (by norm_num : (2 : ℚ) ≠ 0),
      add_comm, hE]
    exact (log_bounds hq).1
  have h1 : 2 ^ 23 ≤ round_nearest_even (q / 2 ^ ulp_exponent q) := by
    have := rne_mono hs
    have h2 : ((2 : ℚ) ^ (23 : ℤ)) = (((2 ^ 23 : ℤ)) : ℚ) := by norm_num
    rw [h2, rne_intCast] at this
    exact this
  have h3 : (2 : ℚ) ^ (23 : ℤ) ≤ (round_nearest_even (q / 2 ^ ulp_exponent q) : ℚ) := by
    have : ((2 ^ 23 : ℤ) : ℚ) ≤ (round_nearest_even (q / 2 ^ ulp_exponent q) : ℚ) := by
      exact_mod_cast h1
    refine le_trans ?_ this
    norm_num
  unfold f32
  rw [zpow_add₀ (by norm_num : (2 : ℚ) ≠ 0), mul_comm ((2:ℚ) ^ ulp_exponent q)]
  exact mul_le_mul_of_nonneg_right h3 (le_of_lt (two_zpow_pos _))

theorem f32_mono {a b : ℚ} (ha : 0 ≤ a) (h : a ≤ b) : f32 a ≤ f32 b := by
  rcases eq_or_lt_of_le ha with h0 | hpos
  · rw [← h0, f32_zero]
    exact f32_nonneg (le_trans ha h)
  · have hb : 0 < b := lt_of_lt_of_le hpos h
    rcases eq_or_lt_of_le (ulp_exponent_mono hpos h) with he | hlt
    · unfold f32
      rw [← he]
      apply mul_le_mul_of_nonneg_right _ (le_of_lt (two_zpow_pos _))
      have : a / 2 ^ ulp_exponent a ≤ b / 2 ^ ulp_exponent a :=
        div_le_div_of_nonneg_right h (le_of_lt (two_zpow_pos _))
      exact_mod_cast rne_mono this
    · have hn : -126 < Int.log 2 b := by
        unfold ulp_exponent at hlt
        rw [abs_of_pos hpos, abs_of_pos hb] at hlt
        omega
      calc f32 a ≤ 2 ^ (ulp_exponent a + 24) := f32_le_binade_top hpos
        _ ≤ 2 ^ (ulp_exponent b + 23) := by
            apply zpow_le_zpow_right₀ (by norm_num)
            omega
        _ ≤ f32 b := f32_ge_binade_bottom hb hn

theorem f32_le_add {q : ℚ} (k : ℤ) (hq : 0 ≤ q) (hk : q < 2 ^ k) (hk2 : -125 ≤ k) :
    f32 q ≤ q + 2 ^ (k - 25) := by
  rcases eq_or_lt_of_le hq with h0 | hpos
  · rw [← h0, f32_zero]
    simpa using le_of_lt (two_zpow_pos (k - 25))
  · have hlog : Int.log 2 q < k := by
      have := (Int.lt_zpow_iff_log_lt (b := 2) (by norm_num) hpos (x := k)).1
        (by simpa using hk)
      exact this
    have hE : ulp_exponent q - 1 ≤ k - 25 := by
      unfold ulp_exponent
      rw [abs_of_pos hpos]
      omega
    have hr := rne_le_add_half (q / 2 ^ ulp_exponent q)
    have hp := two_zpow_pos (ulp_exponent q)
    calc f32 q = round_nearest_even (q / 2 ^ ulp_exponent q) * 2 ^ ulp_exponent q := rfl
      _ ≤ (q / 2 ^ ulp_exponent q + 1 / 2) * 2 ^ ulp_exponent q :=
          mul_le_mul_of_nonneg_right hr (le_of_lt hp)
      _ = q + 2 ^ (ulp_exponent q - 1) := by
          rw [zpow_sub₀ (by norm_num : (2 : ℚ) ≠ 0)]
          field_simp
          ring
      _ ≤ q + 2 ^ (k - 25) := by
          have := zpow_le_zpow_right₀ (by norm_num : (1 : ℚ) ≤ 2) hE
          linarith

theorem f32_le_bound {q B' B : ℚ} (k : ℤ) (hq : 0 ≤ q) (h1 : q ≤ B') (h2 : B' < 2 ^ k)
    (h3 : B' + 2 ^ (k - 25) ≤ B) (hk : -125 ≤ k) : f32 q ≤ B := by
  have := f32_le_add k hq (lt_of_le_of_lt h1 h2) hk
  linarith

theorem c_round_of_nonneg {q : ℚ} (h : 0 ≤ q) : c_round q = ⌊q + 1 / 2⌋ := by
  unfold c_round
  rw [if_pos h]

theorem c_round_mono {a b : ℚ} (ha : 0 ≤ a) (h : a ≤ b) : c_round a ≤ c_round b := by
  rw [c_round_of_nonneg ha, c_round_of_nonneg (le_trans ha h)]
  exact Int.floor_mono (by linarith)

theorem brightness_nonneg (c : Color) : 0 ≤ brightness c := by
  unfold brightness
  apply f32_nonneg
  have h1 : (0 : ℚ) ≤ (c.r : ℚ) * coef_r := mul_nonneg (Nat.cast_nonneg _) (by norm_num [coef_r])
  have h2 : (0 : ℚ) ≤ (c.g : ℚ) * coef_g := mul_nonneg (Nat.cast_nonneg _) (by norm_num [coef_g])
  have h3 : (0 : ℚ) ≤ (c.b : ℚ) * coef_b := mul_nonneg (Nat.cast_nonneg _) (by norm_num [coef_b])
  exact add_nonneg (f32_nonneg (add_nonneg (f32_nonneg h1) (f32_nonneg h2))) (f32_nonneg h3)

theorem brightness_mono {c d : Color} (hr : c.r ≤ d.r) (hg : c.g ≤ d.g) (hb : c.b ≤ d.b) :
    brightness c ≤ brightness d := by
  unfold brightness
  have h1 : (0 : ℚ) ≤ (c.r : ℚ) * coef_r := mul_nonneg (Nat.cast_nonneg _) (by norm_num [coef_r])
  have h2 : (0 : ℚ) ≤ (c.g : ℚ) * coef_g := mul_nonneg (Nat.cast_nonneg _) (by norm_num [coef_g])
  have h3 : (0 : ℚ) ≤ (c.b : ℚ) * coef_b := mul_nonneg (Nat.cast_nonneg _) (by norm_num [coef_b])
  have m1 : f32 ((c.r : ℚ) * coef_r) ≤ f32 ((d.r : ℚ) * coef_r) :=
    f32_mono h1 (mul_le_mul_of_nonneg_right (by exact_mod_cast hr) (by norm_num [coef_r]))
  have m2 : f32 ((c.g : ℚ) * coef_g) ≤ f32 ((d.g : ℚ) * coef_g) :=
    f32_mono h2 (mul_le_mul_of_nonneg_right (by exact_mod_cast hg) (by norm_num [coef_g]))
  have m3 : f32 ((c.b : ℚ) * coef_b) ≤ f32 ((d.b : ℚ) * coef_b) :=
    f32_mono h3 (mul_le_mul_of_nonneg_right (by exact_mod_cast hb) (by norm_num [coef_b]))
  have m12 := f32_mono (add_nonneg (f32_nonneg h1) (f32_nonneg h2)) (add_le_add m1 m2)
  exact f32_mono (add_nonneg (f32_nonneg (add_nonneg (f32_nonneg h1) (f32_nonneg h2)))
    (f32_nonneg h3)) (add_le_add m12 m3)

theorem scaled_nonneg (gl : ℚ) (hgl : 0 ≤ gl) (c : Color) :
    0 ≤ f32 (f32 (brightness c / 600) * gl) :=
  f32_nonneg (mul_nonneg (f32_nonneg (div_nonneg (brightness_nonneg c) (by norm_num))) hgl)

theorem grayscale_index_mono (gl : ℚ) (hgl : 0 ≤ gl) {c d : Color} (hr : c.r ≤ d.r)
    (hg : c.g ≤ d.g) (hb : c.b ≤ d.b) : grayscale_index gl c ≤ grayscale_index gl d := by
  unfold grayscale_index
  apply c_round_mono (scaled_nonneg gl hgl c)
  apply f32_mono (mul_nonneg (f32_nonneg (div_nonneg (brightness_nonneg c) (by norm_num))) hgl)
  apply mul_le_mul_of_nonneg_right _ hgl
  apply f32_mono (div_nonneg (brightness_nonneg c) (by norm_num))
  exact div_le_div_of_nonneg_right (brightness_mono hr hg hb) (by norm_num)

theorem brightness_le (c : Color) (hr : c.r ≤ 255) (hg : c.g ≤ 255) (hb : c.b ≤ 255) :
    brightness c ≤ 25504 / 100 := by
  have h1 : (0 : ℚ) ≤ (c.r : ℚ) * coef_r := mul_nonneg (Nat.cast_nonneg _) (by norm_num [coef_r])
  have h2 : (0 : ℚ) ≤ (c.g : ℚ) * coef_g := mul_nonneg (Nat.cast_nonneg _) (by norm_num [coef_g])
  have h3 : (0 : ℚ) ≤ (c.b : ℚ) * coef_b := mul_nonneg (Nat.cast_nonneg _) (by norm_num [coef_b])
  have cr : (c.r : ℚ) ≤ 255 := by exact_mod_cast hr
  have cg : (c.g : ℚ) ≤ 255 := by exact_mod_cast hg
  have cb : (c.b : ℚ) ≤ 255 := by exact_mod_cast hb
  have b1 : f32 ((c.r : ℚ) * coef_r) ≤ 7625 / 100 :=
    f32_le_bound 7 h1 (mul_le_mul_of_nonneg_right cr (by norm_num [coef_r]))
      (by norm_num [coef_r]) (by norm_num [coef_r]) (by norm_num)
  have b2 : f32 ((c.g : ℚ) * coef_g) ≤ 14969 / 100 :=
    f32_le_bound 8 h2 (mul_le_mul_of_nonneg_right cg (by norm_num [coef_g]))
      (by norm_num [coef_g]) (by norm_num [coef_g]) (by norm_num)
  have b3 : f32 ((c.b : ℚ) * coef_b) ≤ 2908 / 100 :=
    f32_le_bound 5 h3 (mul_le_mul_of_nonneg_right cb (by norm_num [coef_b]))
      (by norm_num [coef_b]) (by norm_num [coef_b]) (by norm_num)
  have b12 : f32 (f32 ((c.r : ℚ) * coef_r) + f32 ((c.g : ℚ) * coef_g)) ≤ 22595 / 100 :=
    f32_le_bound 8 (add_nonneg (f32_nonneg h1) (f32_nonneg h2)) (add_le_add b1 b2)
      (by norm_num) (by norm_num) (by norm_num)
  unfold brightness
  exact f32_le_bound 8 (add_nonneg (f32_nonneg (add_nonneg (f32_nonneg h1) (f32_nonneg h2)))
    (f32_nonneg h3)) (add_le_add b12 b3) (by norm_num) (by norm_num) (by norm_num)

theorem grayscale_length : grayscale.length = 91 := by decide

theorem init_grayscale_len_eq : init_grayscale_len = 91 := by
  simp [init_grayscale_len, grayscale_length]

theorem grayscale_index_le (c : Color) (hr : c.r ≤ 255) (hg : c.g ≤ 255) (hb : c.b ≤ 255) :
    grayscale_index init_grayscale_len c ≤ 39 := by
  have hbr := brightness_le c hr hg hb
  have hd : f32 (brightness c / 600) ≤ 4251 / 10000 :=
    f32_le_bound (-1) (div_nonneg (brightness_nonneg c) (by norm_num))
      (div_le_div_of_nonneg_right hbr (by norm_num)) (by norm_num) (by norm_num) (by norm_num)
  have hm : f32 (f32 (brightness c / 600) * 91) ≤ 387 / 10 :=
    f32_le_bound 6
      (mul_nonneg (f32_nonneg (div_nonneg (brightness_nonneg c) (by norm_num))) (by norm_num))
      (mul_le_mul_of_nonneg_right hd (by norm_num)) (by norm_num) (by norm_num) (by norm_num)
  unfold grayscale_index
  rw [init_grayscale_len_eq, c_round_of_nonneg
    (f32_nonneg (mul_nonneg (f32_nonneg (div_nonneg (brightness_nonneg c) (by norm_num)))
      (by norm_num)))]
  rw [Int.floor_le_iff]
  push_cast
  linarith

theorem grayscale_index_nonneg (gl : ℚ) (hgl : 0 ≤ gl) (c : Color) :
    0 ≤ grayscale_index gl c := by
  unfold grayscale_index
  rw [c_round_of_nonneg (scaled_nonneg gl hgl c)]
  exact Int.floor_nonneg.2 (by linarith [scaled_nonneg gl hgl c])

theorem getD_lookup {α : Type} (l : List α) (n : Nat) (d : α) (h : n < l.length) :
    l[n]? = some (l.getD n d) := by
  rw [List.getD_eq_getElem?_getD, List.getElem?_eq_getElem h]
  rfl

theorem glyph_lookup (gl : ℚ) (c : Color) (h0 : 0 ≤ grayscale_index gl c)
    (hlt : (grayscale_index gl c).toNat < grayscale.length) :
    grayscale[(grayscale_index gl c).toNat]? = some (glyph gl c) := by
  have h := getD_lookup grayscale (grayscale_index gl c).toNat (Char.ofNat 0) hlt
  rw [h]
  unfold glyph
  rw [if_pos h0]

/-- C10: for every color with channels in `0..255`, with `grayscale_len` as
set by `init` (the length 91 of the ramp), the glyph index computed by the
terminal `set_pixel` is at least 0 and at most 39, hence below the length of
the ramp, so that the lookup reads a character of the ramp; and the index is
non-decreasing in each of the three channels. -/
theorem grayscale_index_valid (r g b : Nat) (hr : r ≤ 255) (hg : g ≤ 255) (hb : b ≤ 255) :
    init_grayscale_len = (grayscale.length : ℚ) ∧ grayscale.length = 91
      ∧ 0 ≤ grayscale_index init_grayscale_len ⟨r, g, b⟩
      ∧ grayscale_index init_grayscale_len ⟨r, g, b⟩ ≤ 39
      ∧ (grayscale_index init_grayscale_len ⟨r, g, b⟩).toNat < grayscale.length
      ∧ grayscale[(grayscale_index init_grayscale_len ⟨r, g, b⟩).toNat]?
          = some (glyph init_grayscale_len ⟨r, g, b⟩)
      ∧ (∀ r', r ≤ r' → r' ≤ 255 →
          grayscale_index init_grayscale_len ⟨r, g, b⟩
            ≤ grayscale_index init_grayscale_len ⟨r', g, b⟩)
      ∧ (∀ g', g ≤ g' → g' ≤ 255 →
          grayscale_index init_grayscale_len ⟨r, g, b⟩
            ≤ grayscale_index init_grayscale_len ⟨r, g', b⟩)
      ∧ (∀ b', b ≤ b' → b' ≤ 255 →
          grayscale_index init_grayscale_len ⟨r, g, b⟩
            ≤ grayscale_index init_grayscale_len ⟨r, g, b'⟩) := by
  have hgl : (0 : ℚ) ≤ init_grayscale_len := by
    rw [init_grayscale_len_eq]
    norm_num
  have h0 := grayscale_index_nonneg init_grayscale_len hgl ⟨r, g, b⟩
  have h39 := grayscale_index_le ⟨r, g, b⟩ hr hg hb
  have hlt : (grayscale_index init_grayscale_len ⟨r, g, b⟩).toNat < grayscale.length := by
    rw [grayscale_length]
    omega
  refine ⟨rfl, grayscale_length, h0, h39, hlt, ?_, ?_, ?_, ?_⟩
  · exact glyph_lookup init_grayscale_len ⟨r, g, b⟩ h0 hlt
  · intro r' h _
    exact grayscale_index_mono init_grayscale_len hgl h (le_refl g) (le_refl b)
  · intro g' h _
    exact grayscale_index_mono init_grayscale_len hgl (le_refl r) h (le_refl b)
  · intro b' h _
    exact grayscale_index_mono init_grayscale_len hgl (le_refl r) (le_refl g) h

/-- Witness of C10: the color (255, 125, 50) given to the car mesh by the
frame loop. -/
theorem grayscale_index_valid_witness :
    0 ≤ grayscale_index init_grayscale_len ⟨255, 125, 50⟩
      ∧ grayscale_index init_grayscale_len ⟨255, 125, 50⟩ ≤ 39
      ∧ (grayscale_index init_grayscale_len ⟨255, 125, 50⟩).toNat < grayscale.length :=
  ⟨(grayscale_index_valid 255 125 50 (by decide) (by decide) (by decide)).2.2.1,
    (grayscale_index_valid 255 125 50 (by decide) (by decide) (by decide)).2.2.2.1,
    (grayscale_index_valid 255 125 50 (by decide) (by decide) (by decide)).2.2.2.2.1⟩

end TriangleRaster
